import Mathlib

/-!
Verification of the `tiny-reactive-dataflow` propagation engine
(`src/tiny-reactive-dataflow.js`) against its natural-language specification.

The engine is shallowly embedded: the mutable global `dataflow` object becomes
an explicit `Dataflow` record threaded through the functions `setNodeValue`,
`visitNode`, `processBatch`, `drainLoop` and `set`, which are direct
translations of the JavaScript code.  JavaScript values that can appear in
batches and node caches are modelled by the inductive type `JSValue`;
`typeof` and property reads are modelled so that the Promise-detection guard
of `set` behaves exactly as in the source (including the `TypeError` raised
when reading `.then` of `null`).  Producer functions are modelled as pure
Lean functions from an argument list to a settled outcome (fulfilled value or
rejection reason) together with the list of batches the producer enqueues via
nested `dataflow.set` calls; this reflects that a nested `set` during an
active session only enqueues (the `inProgress` branch of the source).

Exceptions thrown inside `set` are modelled by returning the state at the
point of the throw paired with `some` error, since in JavaScript the thrown
exception leaves the partially mutated global object in place.

Recursions that are bounded in the source only by the finiteness of the
registered-node set (the downstream-closure traversal, the wavefront loop,
the batch-queue drain) take an explicit fuel argument; exhausted fuel is
reported as the distinguished error `SetError.outOfFuel` and never occurs on
the concrete scenarios evaluated below.
-/

namespace TinyDataflow

abbrev Name := String

mutual

/-- JavaScript runtime values as far as the engine observes them: the batch
value guard inspects `typeof v` and `v.then`, change detection uses lodash
`isEqual` (deep structural equality), and everything else is opaque.
Functions and promises carry a numeric identity. -/
inductive JSValue where
  | jsUndefined : JSValue
  | null : JSValue
  | boolean (b : Bool) : JSValue
  | num (n : Int) : JSValue
  | str (s : String) : JSValue
  | fn (id : Nat) : JSValue
  | promise : JSValue
  | obj (fields : JSFields) : JSValue
  deriving DecidableEq, Repr

/-- Field list of a plain JavaScript object, in property order. -/
inductive JSFields where
  | nil : JSFields
  | cons (k : String) (v : JSValue) (rest : JSFields) : JSFields
  deriving DecidableEq, Repr

end

/-- Property lookup in an object's field list (first match wins). -/
def JSFields.lookup : JSFields → String → Option JSValue
  | .nil, _ => none
  | .cons k v rest, f => if k = f then some v else rest.lookup f

/-- The JavaScript `typeof` operator restricted to `JSValue`.
`typeof null` is `"object"`. -/
def typeOf : JSValue → String
  | .jsUndefined => "undefined"
  | .null => "object"
  | .boolean _ => "boolean"
  | .num _ => "number"
  | .str _ => "string"
  | .fn _ => "function"
  | .promise => "object"
  | .obj _ => "object"

/-- Property read `v[f]`.  Reading a property of `null` or `undefined`
throws a `TypeError` (modelled as `Except.error ()`); a plain object yields
the field or `undefined`; a promise has a callable `then`; primitives box to
objects without the fields we care about. -/
def getField : JSValue → String → Except Unit JSValue
  | .null, _ => .error ()
  | .jsUndefined, _ => .error ()
  | .obj fields, f => .ok ((fields.lookup f).getD .jsUndefined)
  | .fn _, _ => .ok .jsUndefined
  | .promise, f => .ok (if f = "then" then .fn 0 else .jsUndefined)
  | _, _ => .ok .jsUndefined

/-- Lodash `_.isEqual`: deep structural equality on the modelled values. -/
def isEqualJS (a b : JSValue) : Bool := decide (a = b)

/-- Result of calling a producer and letting its promise settle: the settled
outcome (`.ok` fulfilled value or `.error` rejection reason) plus the batches
the producer enqueued through nested `dataflow.set` calls while running. -/
structure ProdResult where
  result : Except JSValue JSValue
  enqueues : List (List (Name × JSValue))

/-- A registered dataflow node function.  Under the registration forms of the
source, the JavaScript function's own `name` coincides with the key under
which it is registered, so the node name is used wherever the source uses
`fn.name`. -/
structure Fn where
  run : List JSValue → ProdResult

/-- One update batch: the `Object.entries` of the object passed to
`dataflow.set`, in key insertion order. -/
abbrev Batch := List (Name × JSValue)

/-- An error record pushed onto `dataflow.errors` when a node function throws
or its promise is rejected. -/
structure ErrInfo where
  functionName : Name
  functionParams : List JSValue
  reason : JSValue
  deriving DecidableEq, Repr

/-- Observable events of one processing session, recorded in order:
`bstart b` when a batch is dequeued and its processing begins, `call n args`
when the producer of node `n` is actually invoked (the memoization gate
passed), `bend b` when the batch's wavefront has fully drained. -/
inductive Ev where
  | bstart (b : Batch) : Ev
  | call (n : Name) (args : List JSValue) : Ev
  | bend (b : Batch) : Ev
  deriving DecidableEq, Repr

/-- Errors that abort a `set` call (thrown exceptions in the source):
a dependency cycle found during closure traversal (carrying the cycle path
that the source prints), a batch value that is a thenable, the `TypeError`
raised by reading `.then` of `null`, or fuel exhaustion (an artifact of the
embedding: the source would simply keep running). -/
inductive SetError where
  | cycle (path : List Name) : SetError
  | promiseValue (name : Name) : SetError
  | typeErr : SetError
  | outOfFuel : SetError
  deriving DecidableEq, Repr

/-- The `dataflow` global object.  `fnNames` mirrors the key set of
`nameToFn` in registration order (the source iterates `nameToFn.values()`);
maps are total functions with the JavaScript defaults (`none`, `[]`, `jsUndefined`,
falsy, `0`) for absent keys.  `trace` is the session event log. -/
structure Dataflow where
  nameToFn : Name → Option Fn
  fnNames : List Name
  nodeToUpstream : Name → List Name
  nodeToDownstream : Name → List Name
  updateBatches : List Batch
  value : Name → JSValue
  valueChanged : Name → Bool
  numDirtyDeps : Name → Int
  inProgress : Bool
  errors : List ErrInfo
  trace : List Ev

/-- The freshly loaded library: empty graph, empty queue, no session. -/
def emptyDataflow : Dataflow where
  nameToFn := fun _ => none
  fnNames := []
  nodeToUpstream := fun _ => []
  nodeToDownstream := fun _ => []
  updateBatches := []
  value := fun _ => .jsUndefined
  valueChanged := fun _ => false
  numDirtyDeps := fun _ => 0
  inProgress := false
  errors := []
  trace := []

/-- `dataflow.register` for a single (name, upstream-parameter-list, body)
triple.  Parameter-name extraction from source text is the out-of-scope
collaborator, so the upstream list is passed explicitly.  Fails (returns
`none`) on a duplicate name; otherwise indexes the function, records its
upstream list, and appends the node to the downstream list of every upstream
name, once per occurrence of that name in the parameter list. -/
def register (df : Dataflow) (fnName : Name) (paramNames : List Name)
    (run : List JSValue → ProdResult) : Option Dataflow :=
  if (df.nameToFn fnName).isSome then none
  else some { df with
    nameToFn := fun n => if n = fnName then some ⟨run⟩ else df.nameToFn n
    fnNames := df.fnNames ++ [fnName]
    nodeToUpstream := fun n => if n = fnName then paramNames else df.nodeToUpstream n
    nodeToDownstream := fun n =>
      df.nodeToDownstream n ++ List.replicate (paramNames.count n) fnName }

/-- The cycle path reported by `visitNode` when `name` is revisited on the
current traversal path: the suffix of the path from the first occurrence of
`name`, with `name` appended (the source joins this list with " -> " into
the thrown `Error`'s message). -/
def cyclePathOf (path : List Name) (name : Name) : List Name :=
  path.drop (path.indexOf name) ++ [name]

/-- The `for (const dsFnName of dsFnNames)` loop inside `visitNode`,
parameterized over the recursive visit: for each downstream node in order,
apply the visitor (`numDirtyDeps++`, recorded in the counter accumulator)
and recurse into it. -/
def visitList
    (visit : Name → List Name × (Name → Int) → Except SetError (List Name × (Name → Int))) :
    List Name → List Name × (Name → Int) → Except SetError (List Name × (Name → Int))
  | [], vs => .ok vs
  | d :: ds, vs =>
    match visit d (vs.1, fun n => if n = d then vs.2 d + 1 else vs.2 n) with
    | .error e => .error e
    | .ok vs => visitList visit ds vs

/-- `visitNode` of `set`: depth-first traversal of the downstream transitive
closure.  `vs.1` is the threaded `visited` set (insertion-ordered), `vs.2`
accumulates the effect of the visitor `fn => fn.numDirtyDeps++`, and `path`
is the current recursion stack (`visitedInPath`: names are appended on entry
and removed on exit, so it behaves as a stack and is simply passed downward).
Revisiting a name on `path` throws the cycle error.  `fuel` bounds the
recursion depth (the source is bounded by the finitely many registered
names). -/
def visitNode (df : Dataflow) : Nat → Name → List Name → List Name × (Name → Int) →
    Except SetError (List Name × (Name → Int))
  | 0, _, _, _ => .error .outOfFuel
  | fuel + 1, name, path, vs =>
    if name ∈ path then .error (.cycle (cyclePathOf path name))
    else if name ∈ vs.1 then .ok vs
    else visitList (fun d vs => visitNode df fuel d (path ++ [name]) vs)
      (df.nodeToDownstream name) (vs.1 ++ [name], vs.2)

/-- The `for (const paramName of paramNames)` loop of
`visitReachableFnsFromParams`: visit each batch key with an empty path
(`visitedInPath` is empty again between top-level calls), sharing the
`visited` set and the counter accumulator. -/
def visitParams (df : Dataflow) (fuel : Nat) : List Name → List Name × (Name → Int) →
    Except SetError (List Name × (Name → Int))
  | [], vs => .ok vs
  | p :: ps, vs =>
    match visitNode df fuel p [] vs with
    | .error e => .error e
    | .ok vs => visitParams df fuel ps vs

/-- `visitReachableFnsFromParams`: traverse the downstream transitive closure
from every batch key, starting from an empty visited set and all-zero
counters (the counters were reset just before). -/
def visitReachableFnsFromParams (df : Dataflow) (fuel : Nat) (paramNames : List Name) :
    Except SetError (List Name × (Name → Int)) :=
  visitParams df fuel paramNames ([], fun _ => 0)

/-- The downstream half of `setNodeValue`: for each name in the downstream
list, in order, decrement its pending-dependency counter, and add it to the
dirty frontier exactly when the decremented counter is `0` (the frontier is a
JavaScript `Set`, so insertion is deduplicating and order-preserving). -/
def decDownstream : List Name → (Name → Int) → List Name → (Name → Int) × List Name
  | [], counts, frontier => (counts, frontier)
  | d :: ds, counts, frontier =>
    let c := counts d - 1
    let counts := fun n => if n = d then c else counts n
    if c = 0 then decDownstream ds counts (if d ∈ frontier then frontier else frontier ++ [d])
    else decDownstream ds counts frontier

/-- `setNodeValue(name, value, dirtyNodeNamesOut)`: compare `value` with the
cached value by `_.isEqual`; record the changed flag; write the cache only on
change; then decrement every direct downstream node's counter, collecting the
ones that reach zero into the frontier. -/
def setNodeValue (df : Dataflow) (name : Name) (value : JSValue) (frontier : List Name) :
    Dataflow × List Name :=
  let oldValue := df.value name
  let changed := !isEqualJS oldValue value
  let df := { df with valueChanged := fun n => if n = name then changed else df.valueChanged n }
  let df := if changed then
      { df with value := fun n => if n = name then value else df.value n }
    else df
  let r := decDownstream (df.nodeToDownstream name) df.numDirtyDeps frontier
  ({ df with numDirtyDeps := r.1 }, r.2)

/-- One planned invocation of the wavefront inner loop: the node name, the
gathered upstream argument values, whether the memoization gate passed (so
the producer was actually called), the settled outcome, and the batches the
producer enqueued.  For a gate-failing node the outcome is the synthesized
`Promise.resolve(dataflow.value[name])`. -/
structure PendingCall where
  name : Name
  args : List JSValue
  invoked : Bool
  result : Except JSValue JSValue
  enq : List Batch

/-- The first `for (const name of dirtyNodeNames)` loop of the wavefront:
for each frontier node, read the upstream values and changed flags from the
current store, call the producer iff some upstream changed, and collect the
pending results in frontier order.  The store is read-only here; the
producers' own effects (their enqueued batches) are collected in the
`PendingCall`s.  An unregistered frontier name cannot occur (frontier names
come from downstream lists, which hold registered names only); it is skipped. -/
def gatherCalls (df : Dataflow) : List Name → List PendingCall
  | [] => []
  | n :: ns =>
    match df.nameToFn n with
    | none => gatherCalls df ns
    | some f =>
      let paramNames := df.nodeToUpstream n
      let someArgChanged := paramNames.any df.valueChanged
      let args := paramNames.map df.value
      if someArgChanged then
        let r := f.run args
        ⟨n, args, true, r.result, r.enqueues⟩ :: gatherCalls df ns
      else
        ⟨n, args, false, .ok (df.value n), []⟩ :: gatherCalls df ns

/-- The settlement loop over `Promise.allSettled`'s results: fulfilled
outcomes are cached via `setNodeValue` (feeding the next frontier), rejected
outcomes append an error record and do not touch the store. -/
def settlePhase (df : Dataflow) : List PendingCall → List Name → Dataflow × List Name
  | [], frontier => (df, frontier)
  | pc :: pcs, frontier =>
    match pc.result with
    | .ok v =>
      let r := setNodeValue df pc.name v frontier
      settlePhase r.1 pcs r.2
    | .error reason =>
      settlePhase { df with errors := df.errors ++ [⟨pc.name, pc.args, reason⟩] } pcs frontier

/-- The `call` trace events of one wavefront round: one per frontier node
whose producer is actually invoked, in frontier order. -/
def roundCallEvents (df : Dataflow) (frontier : List Name) : List Ev :=
  ((gatherCalls df frontier).filter (·.invoked)).map fun pc => Ev.call pc.name pc.args

/-- The batches enqueued by the producers invoked in one wavefront round, in
invocation order. -/
def roundEnqueues (df : Dataflow) (frontier : List Name) : List Batch :=
  ((gatherCalls df frontier).map (·.enq)).flatten

/-- One round of the wavefront loop body: gather and launch the frontier's
calls (recording a `call` trace event per actual producer invocation and
appending the producers' nested enqueues to the batch queue, both in frontier
order), clear the frontier, await all settlements, and apply them. -/
def runRound (df : Dataflow) (frontier : List Name) : Dataflow × List Name :=
  let pcs := gatherCalls df frontier
  let df := { df with
    trace := df.trace ++ roundCallEvents df frontier
    updateBatches := df.updateBatches ++ roundEnqueues df frontier }
  settlePhase df pcs []

/-- The state of one wavefront round as needed to state the memoization law:
the frontier and the changed-flag map at the start of the round. -/
structure RoundInfo where
  frontier : List Name
  changed : Name → Bool

/-- The `while (dirtyNodeNames.size > 0)` wavefront loop, also returning the
per-round information.  Fuel exhaustion with a non-empty frontier is the
embedding's rendering of a run longer than the registered-node count allows
(unreachable from `register`-built graphs). -/
def runWave (fuel : Nat) (df : Dataflow) (frontier : List Name) :
    Dataflow × List RoundInfo × Option SetError :=
  match fuel with
  | 0 => (df, [], if frontier.isEmpty then none else some .outOfFuel)
  | fuel + 1 =>
    if frontier.isEmpty then (df, [], none)
    else
      let info : RoundInfo := ⟨frontier, df.valueChanged⟩
      let r := runRound df frontier
      let w := runWave fuel r.1 r.2
      (w.1, info :: w.2.1, w.2.2)

/-- The Promise guard applied to each batch entry before it is stored:
`typeof value === "object" && typeof value.then === "function"` throws
`Error("Value of '<name>' cannot be a Promise")`; evaluating `value.then`
itself throws a `TypeError` when `value` is `null`. -/
def guardCheck (name : Name) (v : JSValue) : Option SetError :=
  if typeOf v = "object" then
    match getField v "then" with
    | .error _ => some .typeErr
    | .ok t => if typeOf t = "function" then some (.promiseValue name) else none
  else none

/-- The `for (const [name, value] of Object.entries(updateBatch))` loop:
entries are guarded and applied strictly left to right; a guard failure
throws with all earlier entries already applied and the offending and later
entries unapplied. -/
def entriesPhase (df : Dataflow) : List (Name × JSValue) → List Name →
    Dataflow × List Name × Option SetError
  | [], frontier => (df, frontier, none)
  | p :: rest, frontier =>
    match guardCheck p.1 p.2 with
    | some e => (df, frontier, some e)
    | none =>
      let r := setNodeValue df p.1 p.2 frontier
      entriesPhase r.1 rest r.2

/-- The engine state at the start of a batch's closure traversal: batch
start recorded, all pending-dependency counters reset to `0`
(`for (const fn of dataflow.nameToFn.values()) fn.numDirtyDeps = 0`). -/
def batchClosure (df : Dataflow) (b : Batch) : Dataflow :=
  { df with
    trace := df.trace ++ [Ev.bstart b]
    numDirtyDeps := fun _ => 0 }

/-- The engine state at the start of a batch's entry-application phase:
batch start recorded, pending counters installed by the closure traversal's
visitor, changed flags reset (`dataflow.valueChanged = {}`). -/
def entriesStart (df : Dataflow) (b : Batch) (counts : Name → Int) : Dataflow :=
  { batchClosure df b with
    numDirtyDeps := counts
    valueChanged := fun _ => false }

/-- Processing of one dequeued batch (the body of the
`while (!dataflow.updateBatches.isEmpty())` loop): record the batch start,
reset all pending counters, traverse the downstream closure from the batch
keys (cycle check plus counter increments), reset the changed flags, apply
the batch entries, and run the wavefront loop; on full drain record the
batch end.  Also returns the per-round wavefront information. -/
def processBatch (fuel : Nat) (df : Dataflow) (b : Batch) :
    Dataflow × List RoundInfo × Option SetError :=
  match visitReachableFnsFromParams (batchClosure df b) fuel (b.map Prod.fst) with
  | .error e => (batchClosure df b, [], some e)
  | .ok vc =>
    let r := entriesPhase (entriesStart df b vc.2) b []
    match r.2.2 with
    | some e => (r.1, [], some e)
    | none =>
      let w := runWave fuel r.1 r.2.1
      match w.2.2 with
      | some e => (w.1, w.2.1, some e)
      | none => ({ w.1 with trace := w.1.trace ++ [Ev.bend b] }, w.2.1, none)

/-- Per-batch fuel for the closure traversal and the wavefront loop, large
enough for every graph built by `register` (both recursions visit each
registered name at most once past the entry level). -/
def batchFuel (df : Dataflow) : Nat := df.fnNames.length + 2

/-- The `while (!dataflow.updateBatches.isEmpty())` drain loop: dequeue and
process batches (including dynamically enqueued ones) until the queue is
empty; a thrown error aborts the loop with the state at the throw.  `fuel`
bounds the number of batches processed in one session: the source loops
forever on a self-sustaining dynamic update cycle. -/
def drainLoop (fuel : Nat) (df : Dataflow) : Dataflow × Option SetError :=
  match df.updateBatches with
  | [] => (df, none)
  | b :: rest =>
    match fuel with
    | 0 => (df, some .outOfFuel)
    | fuel + 1 =>
      let r := processBatch (batchFuel df) { df with updateBatches := rest } b
      match r.2.2 with
      | some e => (r.1, some e)
      | none => drainLoop fuel r.1

/-- The engine state right after `set` has enqueued its batch. -/
def enqueued (df : Dataflow) (b : Batch) : Dataflow :=
  { df with updateBatches := df.updateBatches ++ [b] }

/-- The engine state at the start of a processing session: batch enqueued,
`inProgress` raised, error sink cleared. -/
def sessionStart (df : Dataflow) (b : Batch) : Dataflow :=
  { enqueued df b with inProgress := true, errors := [] }

/-- `dataflow.set(nameToValuesObj)`: enqueue the batch; if a session is
already in progress return at once (the active session will pick the batch
up), otherwise start a session (raise `inProgress`, clear the error sink),
drain the queue, and end the session.  A thrown error leaves `inProgress`
raised, exactly as an exception escaping the source's `while` loop does. -/
def set (fuel : Nat) (df : Dataflow) (b : Batch) : Dataflow × Option SetError :=
  if (enqueued df b).inProgress then (enqueued df b, none)
  else
    let r := drainLoop fuel (sessionStart df b)
    match r.2 with
    | none => ({ r.1 with inProgress := false }, none)
    | some e => (r.1, some e)

/-! ### Observables used by the statements -/

/-- `calledIn tr n` holds when the trace `tr` contains an invocation of node
`n`'s producer. -/
def calledIn (tr : List Ev) (n : Name) : Bool :=
  tr.any fun ev =>
    match ev with
    | .call m _ => m == n
    | _ => false

/-- A list of events consisting only of producer invocations. -/
def CallsOnly (l : List Ev) : Prop := ∀ ev ∈ l, ∃ n args, ev = Ev.call n args

/-- Well-formed session traces: a sequence of per-batch segments, each a
`bstart`, the batch's producer invocations, and a closing `bend` emitted only
once the batch's wavefront has fully drained; an error can truncate the final
segment (no `bend`, and nothing follows it).  In particular the events of
two different batches never interleave, and a new batch starts only after
the previous batch's wavefront has emptied. -/
inductive Sessions : List Ev → Prop where
  | nil : Sessions []
  | halted (b : Batch) (evs : List Ev) : CallsOnly evs → Sessions (Ev.bstart b :: evs)
  | complete (b : Batch) (evs rest : List Ev) : CallsOnly evs → Sessions rest →
      Sessions (Ev.bstart b :: (evs ++ Ev.bend b :: rest))

/-! ### Concrete scenario graphs

Producers for the closed instances evaluated below.  `pureFn f` is a
producer that settles successfully with `f args` and performs no nested
`set`; `failFn r` always throws `r`; `nestFn v b` settles with `v` after
calling `dataflow.set(b)` from inside the producer. -/

/-- A producer that returns `f` of its arguments and enqueues nothing. -/
def pureFn (f : List JSValue → JSValue) : List JSValue → ProdResult :=
  fun args => ⟨.ok (f args), []⟩

/-- A producer that always throws `reason`. -/
def failFn (reason : JSValue) : List JSValue → ProdResult :=
  fun _ => ⟨.error reason, []⟩

/-- A producer that returns `v` after enqueueing the batch `b` via a nested
`dataflow.set` call. -/
def nestFn (v : JSValue) (b : Batch) : List JSValue → ProdResult :=
  fun _ => ⟨.ok v, [b]⟩

/-- `x ↦ 2·x` on numbers. -/
def doubleFn : List JSValue → ProdResult :=
  pureFn fun args =>
    match args with
    | [.num x] => .num (2 * x)
    | _ => .jsUndefined

/-- `x ↦ x + 1` on numbers. -/
def addOneFn : List JSValue → ProdResult :=
  pureFn fun args =>
    match args with
    | [.num x] => .num (x + 1)
    | _ => .jsUndefined

/-- `(x, y) ↦ x + y` on numbers. -/
def sumFn : List JSValue → ProdResult :=
  pureFn fun args =>
    match args with
    | [.num x, .num y] => .num (x + y)
    | _ => .jsUndefined

/-- Graph for the memoization counterexample: `N(a, b)` and `b(a2)`, where
`b`'s producer always throws.  Registered as
`register({N: (a, b) => ..., b: (a2) => ...})`. -/
def dfBlocked : Dataflow :=
  ((register emptyDataflow "N" ["a", "b"] sumFn).bind
    (fun df => register df "b" ["a2"] (failFn (.str "boom")))).getD emptyDataflow

/-- The engine mid-session, as observed by a `set` call made from inside a
running producer (or issued before an earlier un-awaited `set` resolved):
`inProgress` is raised. -/
def busyDF : Dataflow := { emptyDataflow with inProgress := true }

/-- Graph with the dependency cycle `a = f(b)`, `b = g(a)` of the
specification's cycle scenario. -/
def cycDF : Dataflow :=
  ((register emptyDataflow "a" ["b"] doubleFn).bind
    (fun df => register df "b" ["a"] doubleFn)).getD emptyDataflow

/-- Graph and pre-batch state for the producer-failure scenario:
`b = f(a)` where `f` always throws, `c = g(b)` strictly downstream of the
failing node, and a sibling branch `s = h(a)`; the store holds pre-batch
cached values `a = 0`, `b = 5`, `c = 99`. -/
def dfFail : Dataflow :=
  let g := (((register emptyDataflow "b" ["a"] (failFn (.str "boom"))).bind
    (fun df => register df "c" ["b"] addOneFn)).bind
    (fun df => register df "s" ["a"] doubleFn)).getD emptyDataflow
  { g with value := fun n =>
      if n = "a" then .num 0 else if n = "b" then .num 5 else
      if n = "c" then .num 99 else .jsUndefined }

/-- Graph and state for the no-op update witness: `y = f(x)` with cached
values `x = 5`, `y = 10` as left by a previous session. -/
def dfNoop : Dataflow :=
  let g := (register emptyDataflow "y" ["x"] doubleFn).getD emptyDataflow
  { g with value := fun n =>
      if n = "x" then .num 5 else if n = "y" then .num 10 else .jsUndefined }

/-- Graph for the dynamic-dataflow scenario: `p = f(t)` where `f` calls
`dataflow.set({q: 7})` from inside the producer and returns its argument,
and `r = g(q)` consumes the dynamically pushed value. -/
def dfNest : Dataflow :=
  ((register emptyDataflow "p" ["t"]
      (fun args => ⟨.ok ((args.headD .jsUndefined)), [[("q", .num 7)]]⟩)).bind
    (fun df => register df "r" ["q"] doubleFn)).getD emptyDataflow

/-- A store whose node `a` already caches `null` (only a producer result can
put it there; batch entries cannot). -/
def nullDF : Dataflow :=
  { emptyDataflow with value := fun n => if n = "a" then .null else .jsUndefined }

/-- Two engine states with the same dependency graph (the graph is built by
`register` and never mutated during a session). -/
def GraphEq (a b : Dataflow) : Prop :=
  a.nameToFn = b.nameToFn ∧ a.fnNames = b.fnNames
    ∧ a.nodeToUpstream = b.nodeToUpstream ∧ a.nodeToDownstream = b.nodeToDownstream

/-! ## Lemmas about `decDownstream` and `setNodeValue` -/

theorem mem_insertIf (n d : Name) (fr : List Name) :
    n ∈ (if d ∈ fr then fr else fr ++ [d]) ↔ n ∈ fr ∨ n = d := by
  split
  · rename_i hdf
    constructor
    · exact Or.inl
    · rintro (h | h)
      · exact h
      · exact h ▸ hdf
  · simp [List.mem_append]

theorem decDownstream_counts (ds : List Name) (counts : Name → Int) (fr : List Name) (n : Name) :
    (decDownstream ds counts fr).1 n = counts n - ds.count n := by
  induction ds generalizing counts fr with
  | nil => simp [decDownstream]
  | cons d ds ih =>
    simp only [decDownstream]
    split <;> simp only [ih] <;> by_cases h : n = d <;>
      simp [h, List.count_cons] <;> omega

theorem decDownstream_fr (ds : List Name) (hnd : ds.Nodup) (counts : Name → Int)
    (fr : List Name) (n : Name) :
    (n ∈ (decDownstream ds counts fr).2 ↔ n ∈ fr ∨ (n ∈ ds ∧ counts n = 1)) := by
  induction ds generalizing counts fr with
  | nil => simp [decDownstream]
  | cons d ds ih =>
    obtain ⟨hd, hnd2⟩ := List.nodup_cons.mp hnd
    simp only [decDownstream]
    split
    · rename_i hz
      rw [ih hnd2, mem_insertIf]
      constructor
      · rintro ((h | h) | ⟨hm, h1⟩)
        · exact Or.inl h
        · subst h
          exact Or.inr ⟨List.mem_cons_self _ _, by omega⟩
        · have hne : n ≠ d := fun he => hd (he ▸ hm)
          rw [if_neg hne] at h1
          exact Or.inr ⟨List.mem_cons_of_mem _ hm, h1⟩
      · rintro (h | ⟨hm, h1⟩)
        · exact Or.inl (Or.inl h)
        · rcases List.mem_cons.mp hm with he | hm2
          · exact Or.inl (Or.inr he)
          · have hne : n ≠ d := fun he => hd (he ▸ hm2)
            exact Or.inr ⟨hm2, by rw [if_neg hne]; exact h1⟩
    · rename_i hz
      rw [ih hnd2]
      constructor
      · rintro (h | ⟨hm, h1⟩)
        · exact Or.inl h
        · have hne : n ≠ d := fun he => hd (he ▸ hm)
          rw [if_neg hne] at h1
          exact Or.inr ⟨List.mem_cons_of_mem _ hm, h1⟩
      · rintro (h | ⟨hm, h1⟩)
        · exact Or.inl h
        · rcases List.mem_cons.mp hm with he | hm2
          · subst he
            omega
          · have hne : n ≠ d := fun he => hd (he ▸ hm2)
            exact Or.inr ⟨hm2, by rw [if_neg hne]; exact h1⟩

theorem setNodeValue_trace (df : Dataflow) (name : Name) (v : JSValue) (fr : List Name) :
    ((setNodeValue df name v fr).1).trace = df.trace := by
  simp only [setNodeValue]
  split <;> rfl

theorem setNodeValue_errors (df : Dataflow) (name : Name) (v : JSValue) (fr : List Name) :
    ((setNodeValue df name v fr).1).errors = df.errors := by
  simp only [setNodeValue]
  split <;> rfl

theorem setNodeValue_updateBatches (df : Dataflow) (name : Name) (v : JSValue) (fr : List Name) :
    ((setNodeValue df name v fr).1).updateBatches = df.updateBatches := by
  simp only [setNodeValue]
  split <;> rfl

theorem setNodeValue_inProgress (df : Dataflow) (name : Name) (v : JSValue) (fr : List Name) :
    ((setNodeValue df name v fr).1).inProgress = df.inProgress := by
  simp only [setNodeValue]
  split <;> rfl

theorem setNodeValue_nameToFn (df : Dataflow) (name : Name) (v : JSValue) (fr : List Name) :
    ((setNodeValue df name v fr).1).nameToFn = df.nameToFn := by
  simp only [setNodeValue]
  split <;> rfl

theorem setNodeValue_fnNames (df : Dataflow) (name : Name) (v : JSValue) (fr : List Name) :
    ((setNodeValue df name v fr).1).fnNames = df.fnNames := by
  simp only [setNodeValue]
  split <;> rfl

theorem setNodeValue_nodeToUpstream (df : Dataflow) (name : Name) (v : JSValue) (fr : List Name) :
    ((setNodeValue df name v fr).1).nodeToUpstream = df.nodeToUpstream := by
  simp only [setNodeValue]
  split <;> rfl

theorem setNodeValue_nodeToDownstream (df : Dataflow) (name : Name) (v : JSValue) (fr : List Name) :
    ((setNodeValue df name v fr).1).nodeToDownstream = df.nodeToDownstream := by
  simp only [setNodeValue]
  split <;> rfl

theorem setNodeValue_valueChanged (df : Dataflow) (name : Name) (v : JSValue) (fr : List Name)
    (m : Name) :
    ((setNodeValue df name v fr).1).valueChanged m =
      if m = name then !isEqualJS (df.value name) v else df.valueChanged m := by
  simp only [setNodeValue]
  split <;> rfl

theorem setNodeValue_value (df : Dataflow) (name : Name) (v : JSValue) (fr : List Name)
    (m : Name) :
    ((setNodeValue df name v fr).1).value m =
      if m = name ∧ isEqualJS (df.value name) v = false then v else df.value m := by
  simp only [setNodeValue]
  cases h : isEqualJS (df.value name) v <;> by_cases hm : m = name <;> simp [h, hm]

theorem setNodeValue_counts (df : Dataflow) (name : Name) (v : JSValue) (fr : List Name)
    (n : Name) :
    ((setNodeValue df name v fr).1).numDirtyDeps n =
      df.numDirtyDeps n - (df.nodeToDownstream name).count n := by
  simp only [setNodeValue]
  split <;> exact decDownstream_counts _ _ _ _

theorem setNodeValue_frontier (df : Dataflow) (name : Name) (v : JSValue) (fr : List Name)
    (n : Name) (hnd : (df.nodeToDownstream name).Nodup) :
    (n ∈ (setNodeValue df name v fr).2 ↔
      n ∈ fr ∨ (n ∈ df.nodeToDownstream name ∧ df.numDirtyDeps n = 1)) := by
  simp only [setNodeValue]
  split <;> exact decDownstream_fr _ hnd _ _ _

/-- C6: `setNodeValue(name, value, frontierOut)` compares `value` to the
node's current cached value by deep structural equality; if different it
writes the new cached value and sets the node's changed-flag, if equal it
clears the changed-flag and leaves the cache untouched; in either case it
decrements the pending-dependency counter of every downstream node of `name`,
adding a downstream node to the output frontier exactly when its counter
reaches zero; and it never itself invokes a producer (no `call` event is
recorded). -/
theorem setNodeValue_contract (df : Dataflow) (name : Name) (v : JSValue) (fr : List Name)
    (hnd : (df.nodeToDownstream name).Nodup) :
    ((setNodeValue df name v fr).1.valueChanged name = !isEqualJS (df.value name) v)
    ∧ (isEqualJS (df.value name) v = false → (setNodeValue df name v fr).1.value name = v)
    ∧ (isEqualJS (df.value name) v = true → (setNodeValue df name v fr).1.value = df.value)
    ∧ (∀ n, n ∈ df.nodeToDownstream name →
        (setNodeValue df name v fr).1.numDirtyDeps n = df.numDirtyDeps n - 1)
    ∧ (∀ n, n ∉ df.nodeToDownstream name →
        (setNodeValue df name v fr).1.numDirtyDeps n = df.numDirtyDeps n)
    ∧ (∀ n, n ∈ (setNodeValue df name v fr).2 ↔
        n ∈ fr ∨ (n ∈ df.nodeToDownstream name ∧ df.numDirtyDeps n = 1))
    ∧ (setNodeValue df name v fr).1.trace = df.trace := by
  refine ⟨?_, ?_, ?_, ?_, ?_, ?_, ?_⟩
  · rw [setNodeValue_valueChanged]
    simp
  · intro h
    rw [setNodeValue_value]
    simp [h]
  · intro h
    funext m
    rw [setNodeValue_value]
    simp [h]
  · intro n hmem
    rw [setNodeValue_counts, List.count_eq_one_of_mem hnd hmem]
    push_cast
    ring
  · intro n hmem
    rw [setNodeValue_counts, List.count_eq_zero_of_not_mem hmem]
    push_cast
    ring
  · intro n
    exact setNodeValue_frontier df name v fr n hnd
  · exact setNodeValue_trace df name v fr

/-- Witness for C6 at a concrete input: the store `dfNoop` (node `x` cached
as `5`, downstream node `y`), updating `x` to `7` with an empty frontier. -/
theorem setNodeValue_contract_witness :
    (dfNoop.nodeToDownstream "x").Nodup
    ∧ (((setNodeValue dfNoop "x" (.num 7) []).1.valueChanged "x" =
          !isEqualJS (dfNoop.value "x") (.num 7))
      ∧ (isEqualJS (dfNoop.value "x") (.num 7) = false →
          (setNodeValue dfNoop "x" (.num 7) []).1.value "x" = .num 7)
      ∧ (isEqualJS (dfNoop.value "x") (.num 7) = true →
          (setNodeValue dfNoop "x" (.num 7) []).1.value = dfNoop.value)
      ∧ (∀ n, n ∈ dfNoop.nodeToDownstream "x" →
          (setNodeValue dfNoop "x" (.num 7) []).1.numDirtyDeps n = dfNoop.numDirtyDeps n - 1)
      ∧ (∀ n, n ∉ dfNoop.nodeToDownstream "x" →
          (setNodeValue dfNoop "x" (.num 7) []).1.numDirtyDeps n = dfNoop.numDirtyDeps n)
      ∧ (∀ n, n ∈ (setNodeValue dfNoop "x" (.num 7) []).2 ↔
          n ∈ ([] : List Name) ∨ (n ∈ dfNoop.nodeToDownstream "x" ∧ dfNoop.numDirtyDeps n = 1))
      ∧ (setNodeValue dfNoop "x" (.num 7) []).1.trace = dfNoop.trace) :=
  ⟨by decide, setNodeValue_contract dfNoop "x" (.num 7) [] (by decide)⟩

/-! ## Lemmas about the closure traversal -/

theorem visitList_congr (v1 v2 : Name → List Name × (Name → Int) →
      Except SetError (List Name × (Name → Int)))
    (h : ∀ d vs, v1 d vs = v2 d vs) (ds : List Name)
    (vs : List Name × (Name → Int)) :
    visitList v1 ds vs = visitList v2 ds vs := by
  induction ds generalizing vs with
  | nil => rfl
  | cons d ds ih =>
    simp only [visitList, h]
    cases v2 d (vs.1, fun n => if n = d then vs.2 d + 1 else vs.2 n) with
    | error e => rfl
    | ok vs2 => exact ih vs2

theorem visitNode_congr (df1 df2 : Dataflow) (h : df1.nodeToDownstream = df2.nodeToDownstream)
    (fuel : Nat) (name : Name) (path : List Name) (vs : List Name × (Name → Int)) :
    visitNode df1 fuel name path vs = visitNode df2 fuel name path vs := by
  induction fuel generalizing name path vs with
  | zero => rfl
  | succ fuel ih =>
    simp only [visitNode, h]
    by_cases h1 : name ∈ path
    · simp [h1]
    · by_cases h2 : name ∈ vs.1
      · simp [h1, h2]
      · simp only [if_neg h1, if_neg h2]
        exact visitList_congr _ _ (fun d vs => ih d (path ++ [name]) vs) _ _

theorem visitParams_congr (df1 df2 : Dataflow) (h : df1.nodeToDownstream = df2.nodeToDownstream)
    (fuel : Nat) (ps : List Name) (vs : List Name × (Name → Int)) :
    visitParams df1 fuel ps vs = visitParams df2 fuel ps vs := by
  induction ps generalizing vs with
  | nil => rfl
  | cons p ps ih =>
    simp only [visitParams, visitNode_congr df1 df2 h]
    cases visitNode df2 fuel p [] vs with
    | error e => rfl
    | ok vs2 => exact ih vs2

theorem visitReachable_congr (df1 df2 : Dataflow)
    (h : df1.nodeToDownstream = df2.nodeToDownstream) (fuel : Nat) (ps : List Name) :
    visitReachableFnsFromParams df1 fuel ps = visitReachableFnsFromParams df2 fuel ps :=
  visitParams_congr df1 df2 h fuel ps _

/-! ## Lemmas about the entry-application phase -/

theorem entriesPhase_all_ok (df : Dataflow) (entries : List (Name × JSValue)) (fr : List Name)
    (h : ∀ p ∈ entries, guardCheck p.1 p.2 = none) :
    (entriesPhase df entries fr).2.2 = none := by
  induction entries generalizing df fr with
  | nil => rfl
  | cons p rest ih =>
    simp only [entriesPhase, h p (List.mem_cons_self p rest)]
    exact ih _ _ (fun q hq => h q (List.mem_cons_of_mem p hq))

theorem entriesPhase_append_ok (df : Dataflow) (pre rest : List (Name × JSValue))
    (fr : List Name) (h : ∀ p ∈ pre, guardCheck p.1 p.2 = none) :
    entriesPhase df (pre ++ rest) fr =
      entriesPhase (entriesPhase df pre fr).1 rest (entriesPhase df pre fr).2.1 := by
  induction pre generalizing df fr with
  | nil => simp [entriesPhase]
  | cons p pre ih =>
    simp only [List.cons_append, entriesPhase, h p (List.mem_cons_self p pre)]
    exact ih _ _ (fun q hq => h q (List.mem_cons_of_mem p hq))

/-- C3 (amended): when processing a batch that contains a thenable (or
otherwise guard-failing) value, the error is thrown when the value-setting
loop reaches the first offending entry; the entries before it in the batch
are already applied at the moment of the throw, the offending and later
entries are never applied. -/
theorem promiseEntry_aborts_midBatch (fuel : Nat) (df : Dataflow) (b : Batch)
    (pre post : List (Name × JSValue)) (n : Name) (v : JSValue) (e : SetError)
    (w : List Name × (Name → Int))
    (hb : b = pre ++ (n, v) :: post)
    (hpre : ∀ p ∈ pre, guardCheck p.1 p.2 = none)
    (hv : guardCheck n v = some e)
    (hw : visitReachableFnsFromParams df fuel (b.map Prod.fst) = .ok w) :
    processBatch fuel df b =
      ((entriesPhase (entriesStart df b w.2) pre []).1, [], some e) := by
  have hw2 : visitReachableFnsFromParams (batchClosure df b) fuel (b.map Prod.fst) = .ok w := by
    have hc := visitReachable_congr (batchClosure df b) df rfl fuel (b.map Prod.fst)
    rw [hc]
    exact hw
  simp only [processBatch, hw2]
  rw [hb, entriesPhase_append_ok _ _ _ _ hpre]
  have hstop : ∀ (df1 : Dataflow) (fr1 : List Name),
      entriesPhase df1 ((n, v) :: post) fr1 = (df1, fr1, some e) := by
    intro df1 fr1
    simp [entriesPhase, hv]
  rw [hstop]

set_option maxHeartbeats 2000000 in
/-- Counterexample to C3 as stated: for the batch `{a: 1, b: <promise>}` the
`set` call does fail with the promise-value error, but the cached value and
the changed-flag of `a` (an entry of the same batch, ordered before the
offending one) have already been written by the failing call. -/
theorem promiseEntry_midBatch_cex :
    (set 10 emptyDataflow [("a", .num 1), ("b", .promise)]).2 = some (.promiseValue "b")
    ∧ (set 10 emptyDataflow [("a", .num 1), ("b", .promise)]).1.value "a" = .num 1
    ∧ emptyDataflow.value "a" = .jsUndefined
    ∧ (set 10 emptyDataflow [("a", .num 1), ("b", .promise)]).1.valueChanged "a" = true :=
  ⟨rfl, rfl, rfl, rfl⟩

/-- Witness for C3 (amended) at a concrete input: batch
`{a: 1, b: <promise>}` on the empty engine. -/
theorem promiseEntry_aborts_midBatch_witness :
    ([("a", JSValue.num 1), ("b", JSValue.promise)] =
        [("a", JSValue.num 1)] ++ ("b", JSValue.promise) :: [])
    ∧ (∀ p ∈ [("a", JSValue.num 1)], guardCheck p.1 p.2 = none)
    ∧ guardCheck "b" .promise = some (.promiseValue "b")
    ∧ visitReachableFnsFromParams emptyDataflow 3
        ([("a", JSValue.num 1), ("b", JSValue.promise)].map Prod.fst) =
          .ok (["a", "b"], fun _ => 0)
    ∧ processBatch 3 emptyDataflow [("a", .num 1), ("b", .promise)] =
      ((entriesPhase
          (entriesStart emptyDataflow [("a", .num 1), ("b", .promise)] (fun _ => 0))
          [("a", JSValue.num 1)] []).1, [], some (.promiseValue "b")) := by
  refine ⟨rfl, ?hpre, rfl, ?hw, ?main⟩
  case hpre => intro p hp; fin_cases hp <;> rfl
  case hw => rfl
  case main =>
    exact promiseEntry_aborts_midBatch 3 emptyDataflow _ [("a", JSValue.num 1)] []
      "b" .promise (.promiseValue "b") (["a", "b"], fun _ => 0) rfl
      (by intro p hp; fin_cases hp <;> rfl) rfl rfl

/-- C10: the Promise-detection guard tests `typeof value === "object"` and
then reads `value.then`, so a `null` batch value throws a `TypeError` during
the value-setting phase and a node can never be set to `null` through a
batch entry, while non-null non-thenable objects and function values pass
the guard. -/
theorem nullGuard_contract :
    (∀ n : Name, guardCheck n .null = some .typeErr)
    ∧ (∀ (n : Name) (id : Nat), guardCheck n (.fn id) = none)
    ∧ (∀ (n : Name) (fs : JSFields), typeOf ((fs.lookup "then").getD .jsUndefined) ≠ "function" →
        guardCheck n (.obj fs) = none)
    ∧ (∀ (df : Dataflow) (entries : List (Name × JSValue)) (fr : List Name) (m : Name),
        (entriesPhase df entries fr).1.value m = .null → df.value m = .null) := by
  refine ⟨fun n => rfl, fun n id => rfl, ?obj, ?noNull⟩
  case obj =>
    intro n fs h
    have h1 : typeOf (JSValue.obj fs) = "object" := rfl
    simp only [guardCheck, getField]
    rw [if_pos h1, if_neg h]
  case noNull =>
    intro df entries
    induction entries generalizing df with
    | nil =>
      intro fr m h
      exact h
    | cons p rest ih =>
      intro fr m h
      simp only [entriesPhase] at h
      cases hg : guardCheck p.1 p.2 with
      | some e =>
        rw [hg] at h
        exact h
      | none =>
        rw [hg] at h
        have h2 := ih _ _ _ h
        rw [setNodeValue_value] at h2
        by_cases hif : m = p.1 ∧ isEqualJS (df.value p.1) p.2 = false
        · rw [if_pos hif] at h2
          rw [h2] at hg
          simp [guardCheck, getField, typeOf] at hg
        · rwa [if_neg hif] at h2

/-- Witness for C10 at concrete inputs: the value `null`, the function value
`fn 0`, the empty plain object, and a store already caching `null` at `a`. -/
theorem nullGuard_contract_witness :
    guardCheck "a" .null = some .typeErr
    ∧ guardCheck "a" (.fn 0) = none
    ∧ (typeOf ((JSFields.nil.lookup "then").getD .jsUndefined) ≠ "function"
        ∧ guardCheck "a" (.obj .nil) = none)
    ∧ ((entriesPhase nullDF [] []).1.value "a" = .null ∧ nullDF.value "a" = .null) :=
  ⟨nullGuard_contract.1 "a", nullGuard_contract.2.1 "a" 0,
    ⟨by decide, nullGuard_contract.2.2.1 "a" .nil (by decide)⟩,
    ⟨rfl, nullGuard_contract.2.2.2 nullDF [] [] "a" rfl⟩⟩

/-! ## Preservation lemmas for the phases of one session -/

theorem GraphEq.refl (df : Dataflow) : GraphEq df df := ⟨rfl, rfl, rfl, rfl⟩

theorem GraphEq.trans {a b c : Dataflow} (h1 : GraphEq a b) (h2 : GraphEq b c) : GraphEq a c :=
  ⟨h1.1.trans h2.1, h1.2.1.trans h2.2.1, h1.2.2.1.trans h2.2.2.1, h1.2.2.2.trans h2.2.2.2⟩

theorem setNodeValue_graph (df : Dataflow) (name : Name) (v : JSValue) (fr : List Name) :
    GraphEq (setNodeValue df name v fr).1 df :=
  ⟨setNodeValue_nameToFn df name v fr, setNodeValue_fnNames df name v fr,
    setNodeValue_nodeToUpstream df name v fr, setNodeValue_nodeToDownstream df name v fr⟩

theorem settlePhase_graph (pcs : List PendingCall) (df : Dataflow) (fr : List Name) :
    GraphEq (settlePhase df pcs fr).1 df := by
  induction pcs generalizing df fr with
  | nil => exact GraphEq.refl df
  | cons pc pcs ih =>
    cases hr : pc.result with
    | ok v =>
      simp only [settlePhase, hr]
      exact (ih _ _).trans (setNodeValue_graph df pc.name v fr)
    | error reason =>
      simp only [settlePhase, hr]
      exact (ih _ _).trans (GraphEq.refl df)

theorem settlePhase_inProgress (pcs : List PendingCall) (df : Dataflow) (fr : List Name) :
    (settlePhase df pcs fr).1.inProgress = df.inProgress := by
  induction pcs generalizing df fr with
  | nil => rfl
  | cons pc pcs ih =>
    cases hr : pc.result with
    | ok v =>
      simp only [settlePhase, hr]
      rw [ih, setNodeValue_inProgress]
    | error reason =>
      simp only [settlePhase, hr]
      rw [ih]

theorem settlePhase_trace (pcs : List PendingCall) (df : Dataflow) (fr : List Name) :
    (settlePhase df pcs fr).1.trace = df.trace := by
  induction pcs generalizing df fr with
  | nil => rfl
  | cons pc pcs ih =>
    cases hr : pc.result with
    | ok v =>
      simp only [settlePhase, hr]
      rw [ih, setNodeValue_trace]
    | error reason =>
      simp only [settlePhase, hr]
      rw [ih]

theorem settlePhase_updateBatches (pcs : List PendingCall) (df : Dataflow) (fr : List Name) :
    (settlePhase df pcs fr).1.updateBatches = df.updateBatches := by
  induction pcs generalizing df fr with
  | nil => rfl
  | cons pc pcs ih =>
    cases hr : pc.result with
    | ok v =>
      simp only [settlePhase, hr]
      rw [ih, setNodeValue_updateBatches]
    | error reason =>
      simp only [settlePhase, hr]
      rw [ih]

theorem runRound_graph (df : Dataflow) (fr : List Name) : GraphEq (runRound df fr).1 df := by
  simp only [runRound]
  exact settlePhase_graph _ _ _

theorem runRound_inProgress (df : Dataflow) (fr : List Name) :
    (runRound df fr).1.inProgress = df.inProgress := by
  simp only [runRound]
  rw [settlePhase_inProgress]

theorem runRound_trace (df : Dataflow) (fr : List Name) :
    (runRound df fr).1.trace = df.trace ++ roundCallEvents df fr := by
  simp only [runRound]
  rw [settlePhase_trace]

theorem runRound_updateBatches (df : Dataflow) (fr : List Name) :
    (runRound df fr).1.updateBatches = df.updateBatches ++ roundEnqueues df fr := by
  simp only [runRound]
  rw [settlePhase_updateBatches]

theorem roundCallEvents_callsOnly (df : Dataflow) (fr : List Name) :
    CallsOnly (roundCallEvents df fr) := by
  intro ev hev
  simp only [roundCallEvents, List.mem_map] at hev
  obtain ⟨pc, _, hpc⟩ := hev
  exact ⟨pc.name, pc.args, hpc.symm⟩

theorem runWave_graph (fuel : Nat) (df : Dataflow) (fr : List Name) :
    GraphEq (runWave fuel df fr).1 df := by
  induction fuel generalizing df fr with
  | zero => exact GraphEq.refl df
  | succ fuel ih =>
    simp only [runWave]
    split
    · exact GraphEq.refl df
    · exact (ih _ _).trans (runRound_graph df fr)

theorem runWave_inProgress (fuel : Nat) (df : Dataflow) (fr : List Name) :
    (runWave fuel df fr).1.inProgress = df.inProgress := by
  induction fuel generalizing df fr with
  | zero => rfl
  | succ fuel ih =>
    simp only [runWave]
    split
    · rfl
    · rw [ih, runRound_inProgress]

theorem runWave_trace (fuel : Nat) (df : Dataflow) (fr : List Name) :
    ∃ evs, CallsOnly evs ∧ (runWave fuel df fr).1.trace = df.trace ++ evs := by
  induction fuel generalizing df fr with
  | zero => exact ⟨[], fun ev h => absurd h (List.not_mem_nil ev), by simp [runWave]⟩
  | succ fuel ih =>
    simp only [runWave]
    split
    · exact ⟨[], fun ev h => absurd h (List.not_mem_nil ev), by simp⟩
    · obtain ⟨evs, hco, htr⟩ := ih (runRound df fr).1 (runRound df fr).2
      refine ⟨roundCallEvents df fr ++ evs, ?_, ?_⟩
      · intro ev hev
        rcases List.mem_append.mp hev with h | h
        · exact roundCallEvents_callsOnly df fr ev h
        · exact hco ev h
      · rw [htr, runRound_trace, List.append_assoc]

theorem runWave_updateBatches (fuel : Nat) (df : Dataflow) (fr : List Name) :
    ∃ qs, (runWave fuel df fr).1.updateBatches = df.updateBatches ++ qs := by
  induction fuel generalizing df fr with
  | zero => exact ⟨[], by simp [runWave]⟩
  | succ fuel ih =>
    simp only [runWave]
    split
    · exact ⟨[], by simp⟩
    · obtain ⟨qs, hq⟩ := ih (runRound df fr).1 (runRound df fr).2
      exact ⟨roundEnqueues df fr ++ qs, by rw [hq, runRound_updateBatches, List.append_assoc]⟩

theorem entriesPhase_graph (entries : List (Name × JSValue)) (df : Dataflow) (fr : List Name) :
    GraphEq (entriesPhase df entries fr).1 df := by
  induction entries generalizing df fr with
  | nil => exact GraphEq.refl df
  | cons p rest ih =>
    simp only [entriesPhase]
    cases guardCheck p.1 p.2 with
    | some e => exact GraphEq.refl df
    | none => exact (ih _ _).trans (setNodeValue_graph df p.1 p.2 fr)

theorem entriesPhase_inProgress (entries : List (Name × JSValue)) (df : Dataflow)
    (fr : List Name) : (entriesPhase df entries fr).1.inProgress = df.inProgress := by
  induction entries generalizing df fr with
  | nil => rfl
  | cons p rest ih =>
    simp only [entriesPhase]
    cases guardCheck p.1 p.2 with
    | some e => rfl
    | none => rw [ih, setNodeValue_inProgress]

theorem entriesPhase_trace (entries : List (Name × JSValue)) (df : Dataflow) (fr : List Name) :
    (entriesPhase df entries fr).1.trace = df.trace := by
  induction entries generalizing df fr with
  | nil => rfl
  | cons p rest ih =>
    simp only [entriesPhase]
    cases guardCheck p.1 p.2 with
    | some e => rfl
    | none => rw [ih, setNodeValue_trace]

theorem entriesPhase_updateBatches (entries : List (Name × JSValue)) (df : Dataflow)
    (fr : List Name) : (entriesPhase df entries fr).1.updateBatches = df.updateBatches := by
  induction entries generalizing df fr with
  | nil => rfl
  | cons p rest ih =>
    simp only [entriesPhase]
    cases guardCheck p.1 p.2 with
    | some e => rfl
    | none => rw [ih, setNodeValue_updateBatches]

/-! ## Lemmas about `processBatch`, `drainLoop`, and `set` -/

theorem processBatch_graph (fuel : Nat) (df : Dataflow) (b : Batch) :
    GraphEq (processBatch fuel df b).1 df := by
  simp only [processBatch]
  cases hv : visitReachableFnsFromParams (batchClosure df b) fuel (b.map Prod.fst) with
  | error e => exact ⟨rfl, rfl, rfl, rfl⟩
  | ok vc =>
    simp only []
    have hent : GraphEq (entriesPhase (entriesStart df b vc.2) b []).1 df :=
      (entriesPhase_graph _ _ _).trans ⟨rfl, rfl, rfl, rfl⟩
    cases hE : (entriesPhase (entriesStart df b vc.2) b []).2.2 with
    | some e => exact hent
    | none =>
      simp only []
      have hwave : GraphEq (runWave fuel (entriesPhase (entriesStart df b vc.2) b []).1
          (entriesPhase (entriesStart df b vc.2) b []).2.1).1 df :=
        (runWave_graph _ _ _).trans hent
      cases hW : (runWave fuel (entriesPhase (entriesStart df b vc.2) b []).1
          (entriesPhase (entriesStart df b vc.2) b []).2.1).2.2 with
      | some e => exact hwave
      | none => exact ⟨hwave.1, hwave.2.1, hwave.2.2.1, hwave.2.2.2⟩

theorem processBatch_inProgress (fuel : Nat) (df : Dataflow) (b : Batch) :
    (processBatch fuel df b).1.inProgress = df.inProgress := by
  simp only [processBatch]
  cases hv : visitReachableFnsFromParams (batchClosure df b) fuel (b.map Prod.fst) with
  | error e => rfl
  | ok vc =>
    simp only []
    have hent : (entriesPhase (entriesStart df b vc.2) b []).1.inProgress = df.inProgress := by
      rw [entriesPhase_inProgress]
      rfl
    cases hE : (entriesPhase (entriesStart df b vc.2) b []).2.2 with
    | some e => exact hent
    | none =>
      simp only []
      have hwave : (runWave fuel (entriesPhase (entriesStart df b vc.2) b []).1
          (entriesPhase (entriesStart df b vc.2) b []).2.1).1.inProgress = df.inProgress := by
        rw [runWave_inProgress]
        exact hent
      cases hW : (runWave fuel (entriesPhase (entriesStart df b vc.2) b []).1
          (entriesPhase (entriesStart df b vc.2) b []).2.1).2.2 with
      | some e => exact hwave
      | none => exact hwave

theorem processBatch_traceShape (fuel : Nat) (df : Dataflow) (b : Batch) :
    ∃ evs, CallsOnly evs ∧ (processBatch fuel df b).1.trace =
      (df.trace ++ [Ev.bstart b]) ++ evs ++
        (if (processBatch fuel df b).2.2 = none then [Ev.bend b] else []) := by
  rcases hpb : processBatch fuel df b with ⟨df2, rounds, err⟩
  simp only
  simp only [processBatch] at hpb
  cases hv : visitReachableFnsFromParams (batchClosure df b) fuel (b.map Prod.fst) with
  | error e =>
    rw [hv] at hpb
    simp only [Prod.mk.injEq] at hpb
    obtain ⟨h1, h2, h3⟩ := hpb
    refine ⟨[], fun ev h => absurd h (List.not_mem_nil ev), ?_⟩
    subst h1
    subst h3
    simp [batchClosure]
  | ok vc =>
    rw [hv] at hpb
    simp only [] at hpb
    have hent : (entriesPhase (entriesStart df b vc.2) b []).1.trace =
        df.trace ++ [Ev.bstart b] := by
      rw [entriesPhase_trace]
      rfl
    cases hE : (entriesPhase (entriesStart df b vc.2) b []).2.2 with
    | some e =>
      rw [hE] at hpb
      simp only [Prod.mk.injEq] at hpb
      obtain ⟨h1, h2, h3⟩ := hpb
      refine ⟨[], fun ev h => absurd h (List.not_mem_nil ev), ?_⟩
      subst h1
      subst h3
      simp [hent]
    | none =>
      rw [hE] at hpb
      obtain ⟨evs, hco, hwtr⟩ := runWave_trace fuel
        (entriesPhase (entriesStart df b vc.2) b []).1
        (entriesPhase (entriesStart df b vc.2) b []).2.1
      cases hW : (runWave fuel (entriesPhase (entriesStart df b vc.2) b []).1
          (entriesPhase (entriesStart df b vc.2) b []).2.1).2.2 with
      | some e =>
        rw [hW] at hpb
        simp only [Prod.mk.injEq] at hpb
        obtain ⟨h1, h2, h3⟩ := hpb
        refine ⟨evs, hco, ?_⟩
        subst h1
        subst h3
        simp [hwtr, hent]
      | none =>
        rw [hW] at hpb
        simp only [Prod.mk.injEq] at hpb
        obtain ⟨h1, h2, h3⟩ := hpb
        refine ⟨evs, hco, ?_⟩
        subst h1
        subst h3
        simp [hwtr, hent]

theorem processBatch_queue (fuel : Nat) (df : Dataflow) (b : Batch) :
    ∃ qs, (processBatch fuel df b).1.updateBatches = df.updateBatches ++ qs := by
  simp only [processBatch]
  cases hv : visitReachableFnsFromParams (batchClosure df b) fuel (b.map Prod.fst) with
  | error e =>
    refine ⟨[], ?_⟩
    simp [batchClosure]
  | ok vc =>
    simp only []
    have hent : (entriesPhase (entriesStart df b vc.2) b []).1.updateBatches =
        df.updateBatches := by
      rw [entriesPhase_updateBatches]
      rfl
    cases hE : (entriesPhase (entriesStart df b vc.2) b []).2.2 with
    | some e =>
      refine ⟨[], ?_⟩
      simp [hent]
    | none =>
      simp only []
      obtain ⟨qs, hq⟩ := runWave_updateBatches fuel
        (entriesPhase (entriesStart df b vc.2) b []).1
        (entriesPhase (entriesStart df b vc.2) b []).2.1
      cases hW : (runWave fuel (entriesPhase (entriesStart df b vc.2) b []).1
          (entriesPhase (entriesStart df b vc.2) b []).2.1).2.2 with
      | some e =>
        refine ⟨qs, ?_⟩
        simp [hq, hent]
      | none =>
        refine ⟨qs, ?_⟩
        simp [hq, hent]

theorem drainLoop_nil (fuel : Nat) (df : Dataflow) (hq : df.updateBatches = []) :
    drainLoop fuel df = (df, none) := by
  conv_lhs => unfold drainLoop
  simp only [hq]

theorem drainLoop_zero (df : Dataflow) (b : Batch) (rest : List Batch)
    (hq : df.updateBatches = b :: rest) : drainLoop 0 df = (df, some .outOfFuel) := by
  conv_lhs => unfold drainLoop
  simp only [hq]

theorem drainLoop_cons_err (fuel : Nat) (df : Dataflow) (b : Batch) (rest : List Batch)
    (e : SetError) (hq : df.updateBatches = b :: rest)
    (hr : (processBatch (batchFuel df) { df with updateBatches := rest } b).2.2 = some e) :
    drainLoop (fuel + 1) df =
      ((processBatch (batchFuel df) { df with updateBatches := rest } b).1, some e) := by
  conv_lhs => unfold drainLoop
  simp only [hq, hr]

theorem drainLoop_cons_ok (fuel : Nat) (df : Dataflow) (b : Batch) (rest : List Batch)
    (hq : df.updateBatches = b :: rest)
    (hr : (processBatch (batchFuel df) { df with updateBatches := rest } b).2.2 = none) :
    drainLoop (fuel + 1) df =
      drainLoop fuel (processBatch (batchFuel df) { df with updateBatches := rest } b).1 := by
  conv_lhs => unfold drainLoop
  simp only [hq, hr]

theorem drainLoop_inProgress (fuel : Nat) (df : Dataflow) :
    (drainLoop fuel df).1.inProgress = df.inProgress := by
  induction fuel generalizing df with
  | zero =>
    cases hq : df.updateBatches with
    | nil => rw [drainLoop_nil 0 df hq]
    | cons b rest => rw [drainLoop_zero df b rest hq]
  | succ fuel ih =>
    cases hq : df.updateBatches with
    | nil => rw [drainLoop_nil (fuel + 1) df hq]
    | cons b rest =>
      cases hr : (processBatch (batchFuel df) { df with updateBatches := rest } b).2.2 with
      | some e =>
        rw [drainLoop_cons_err fuel df b rest e hq hr]
        exact (processBatch_inProgress _ _ _).trans rfl
      | none =>
        rw [drainLoop_cons_ok fuel df b rest hq hr, ih]
        exact (processBatch_inProgress _ _ _).trans rfl

theorem drainLoop_sessions (fuel : Nat) (df : Dataflow) :
    ∃ evs, (drainLoop fuel df).1.trace = df.trace ++ evs ∧ Sessions evs := by
  induction fuel generalizing df with
  | zero =>
    cases hq : df.updateBatches with
    | nil => exact ⟨[], by rw [drainLoop_nil 0 df hq]; simp, Sessions.nil⟩
    | cons b rest => exact ⟨[], by rw [drainLoop_zero df b rest hq]; simp, Sessions.nil⟩
  | succ fuel ih =>
    cases hq : df.updateBatches with
    | nil => exact ⟨[], by rw [drainLoop_nil (fuel + 1) df hq]; simp, Sessions.nil⟩
    | cons b rest =>
      obtain ⟨evs, hco, htr⟩ :=
        processBatch_traceShape (batchFuel df) { df with updateBatches := rest } b
      cases hr : (processBatch (batchFuel df) { df with updateBatches := rest } b).2.2 with
      | some e =>
        refine ⟨Ev.bstart b :: evs, ?_, Sessions.halted b evs hco⟩
        rw [drainLoop_cons_err fuel df b rest e hq hr]
        rw [hr] at htr
        simp only [htr]
        simp
      | none =>
        obtain ⟨evs2, htr2, hsess⟩ :=
          ih (processBatch (batchFuel df) { df with updateBatches := rest } b).1
        refine ⟨Ev.bstart b :: (evs ++ Ev.bend b :: evs2), ?_,
          Sessions.complete b evs evs2 hco hsess⟩
        rw [drainLoop_cons_ok fuel df b rest hq hr, htr2]
        rw [hr] at htr
        simp only [htr]
        simp

theorem drainLoop_ok_queue (fuel : Nat) (df : Dataflow)
    (h : (drainLoop fuel df).2 = none) : (drainLoop fuel df).1.updateBatches = [] := by
  induction fuel generalizing df with
  | zero =>
    cases hq : df.updateBatches with
    | nil => rw [drainLoop_nil 0 df hq]; exact hq
    | cons b rest =>
      rw [drainLoop_zero df b rest hq] at h
      exact absurd h (by simp)
  | succ fuel ih =>
    cases hq : df.updateBatches with
    | nil => rw [drainLoop_nil (fuel + 1) df hq]; exact hq
    | cons b rest =>
      cases hr : (processBatch (batchFuel df) { df with updateBatches := rest } b).2.2 with
      | some e =>
        rw [drainLoop_cons_err fuel df b rest e hq hr] at h
        exact absurd h (by simp)
      | none =>
        rw [drainLoop_cons_ok fuel df b rest hq hr] at h ⊢
        exact ih _ h

theorem drainLoop_ok_bstart (fuel : Nat) (df : Dataflow)
    (h : (drainLoop fuel df).2 = none) :
    ∀ b ∈ df.updateBatches, Ev.bstart b ∈ (drainLoop fuel df).1.trace := by
  induction fuel generalizing df with
  | zero =>
    cases hq : df.updateBatches with
    | nil =>
      intro b hb
      exact absurd hb (List.not_mem_nil b)
    | cons b rest =>
      rw [drainLoop_zero df b rest hq] at h
      exact absurd h (by simp)
  | succ fuel ih =>
    cases hq : df.updateBatches with
    | nil =>
      intro b hb
      exact absurd hb (List.not_mem_nil b)
    | cons b0 rest =>
      intro b hb
      obtain ⟨evs, hco, htr⟩ :=
        processBatch_traceShape (batchFuel df) { df with updateBatches := rest } b0
      cases hr : (processBatch (batchFuel df) { df with updateBatches := rest } b0).2.2 with
      | some e =>
        rw [drainLoop_cons_err fuel df b0 rest e hq hr] at h
        exact absurd h (by simp)
      | none =>
        rw [drainLoop_cons_ok fuel df b0 rest hq hr] at h ⊢
        obtain ⟨evsD, htrD, _⟩ := drainLoop_sessions fuel
          (processBatch (batchFuel df) { df with updateBatches := rest } b0).1
        rcases List.mem_cons.mp hb with hbe | hbr
        · subst hbe
          rw [htrD, htr]
          simp
        · obtain ⟨qs, hqs⟩ := processBatch_queue (batchFuel df)
            { df with updateBatches := rest } b0
          have hbq : b ∈ (processBatch (batchFuel df)
              { df with updateBatches := rest } b0).1.updateBatches := by
            rw [hqs]
            exact List.mem_append_left qs hbr
          exact ih _ h b hbq

theorem set_busy (fuel : Nat) (df : Dataflow) (b : Batch) (h : df.inProgress = true) :
    set fuel df b = (enqueued df b, none) := by
  have hq : (enqueued df b).inProgress = true := h
  simp [set, hq]

theorem set_err_inProgress (fuel : Nat) (df : Dataflow) (b : Batch) (df2 : Dataflow)
    (e : SetError) (h : set fuel df b = (df2, some e)) : df2.inProgress = true := by
  by_cases hip : df.inProgress = true
  · rw [set_busy fuel df b hip] at h
    simp at h
  · have hip2 : (enqueued df b).inProgress = false := by
      simp only [enqueued]
      simpa using hip
    simp only [set, hip2] at h
    cases hd : (drainLoop fuel (sessionStart df b)).2 with
    | none =>
      rw [hd] at h
      simp at h
    | some e2 =>
      rw [hd] at h
      have h1 : (drainLoop fuel (sessionStart df b)).1 = df2 := congrArg Prod.fst h
      rw [← h1, drainLoop_inProgress]
      rfl

theorem set_quiet_ok (fuel : Nat) (df : Dataflow) (b : Batch) (df2 : Dataflow)
    (hip : df.inProgress = false) (h : set fuel df b = (df2, none)) :
    df2.updateBatches = [] ∧ Ev.bstart b ∈ df2.trace := by
  have hip2 : (enqueued df b).inProgress = false := by
    simp only [enqueued]
    simpa using hip
  simp only [set, hip2] at h
  cases hd : (drainLoop fuel (sessionStart df b)).2 with
  | some e2 =>
    rw [hd] at h
    simp at h
  | none =>
    rw [hd] at h
    have h1 : ({ (drainLoop fuel (sessionStart df b)).1 with inProgress := false } : Dataflow) =
        df2 := congrArg Prod.fst h
    have hqe : (drainLoop fuel (sessionStart df b)).1.updateBatches = [] :=
      drainLoop_ok_queue fuel (sessionStart df b) hd
    have hbs : Ev.bstart b ∈ (drainLoop fuel (sessionStart df b)).1.trace := by
      refine drainLoop_ok_bstart fuel (sessionStart df b) hd b ?_
      simp [sessionStart, enqueued]
    constructor
    · rw [← h1]
      exact hqe
    · rw [← h1]
      exact hbs

/-- C4: if the downstream-closure traversal for a batch revisits a name
already on the current traversal path, processing fails with a
cycle-detected error naming the nodes of the cycle, and the batch is not
applied at all: no node's cached value is changed by that batch.
Instantiated by the specification's scenario: registering `a = f(b)` and
`b = g(a)` and calling `update({a: 1})` fails with the cycle path
`a -> b -> a` (naming both `a` and `b`) and leaves every cached value
unchanged. -/
theorem cycle_aborts_batch :
    (∀ (fuel : Nat) (df : Dataflow) (b : Batch) (p : List Name),
        visitReachableFnsFromParams df fuel (b.map Prod.fst) = .error (.cycle p) →
        processBatch fuel df b = (batchClosure df b, [], some (.cycle p))
          ∧ (processBatch fuel df b).1.value = df.value)
    ∧ (set 10 cycDF [("a", .num 1)]).2 = some (.cycle ["a", "b", "a"])
    ∧ "a" ∈ ["a", "b", "a"] ∧ "b" ∈ ["a", "b", "a"]
    ∧ (set 10 cycDF [("a", .num 1)]).1.value = cycDF.value := by
  refine ⟨?gen, rfl, by decide, by decide, rfl⟩
  case gen =>
    intro fuel df b p hv
    have hv2 : visitReachableFnsFromParams (batchClosure df b) fuel (b.map Prod.fst) =
        .error (.cycle p) := by
      rw [visitReachable_congr (batchClosure df b) df rfl]
      exact hv
    constructor
    · simp only [processBatch, hv2]
    · simp only [processBatch, hv2]
      rfl

/-- Witness for C4 at a concrete input: the cyclic graph `a = f(b)`,
`b = g(a)` with the batch `{a: 1}` and the per-batch fuel `4` used by the
drain loop. -/
theorem cycle_aborts_batch_witness :
    visitReachableFnsFromParams cycDF 4 ([("a", JSValue.num 1)].map Prod.fst) =
      .error (.cycle ["a", "b", "a"])
    ∧ (processBatch 4 cycDF [("a", .num 1)] =
        (batchClosure cycDF [("a", .num 1)], [], some (.cycle ["a", "b", "a"]))
      ∧ (processBatch 4 cycDF [("a", .num 1)]).1.value = cycDF.value) :=
  ⟨rfl, cycle_aborts_batch.1 4 cycDF [("a", .num 1)] ["a", "b", "a"] rfl⟩

/-- C9: a `set` call that throws from inside the session it started (cycle
detection, Promise-valued batch entry, ...) leaves `inProgress` true; every
subsequent `set` call then merely enqueues its batch and returns
successfully, and no batch is ever processed again by the engine instance
(the trace and the value store never change again, the queue only grows). -/
theorem stuckInProgress :
    (∀ (fuel : Nat) (df : Dataflow) (b : Batch) (df2 : Dataflow) (e : SetError),
        set fuel df b = (df2, some e) → df2.inProgress = true)
    ∧ (∀ (fuel : Nat) (df : Dataflow) (b : Batch), df.inProgress = true →
        set fuel df b = (enqueued df b, none))
    ∧ (∀ (fuel : Nat) (df : Dataflow), df.inProgress = true → ∀ (bs : List Batch),
        (bs.foldl (fun s b => (set fuel s b).1) df).trace = df.trace
        ∧ (bs.foldl (fun s b => (set fuel s b).1) df).value = df.value
        ∧ (bs.foldl (fun s b => (set fuel s b).1) df).updateBatches = df.updateBatches ++ bs
        ∧ (bs.foldl (fun s b => (set fuel s b).1) df).inProgress = true) := by
  refine ⟨set_err_inProgress, set_busy, ?_⟩
  intro fuel df hip bs
  revert df
  induction bs with
  | nil =>
    intro df hip
    exact ⟨rfl, rfl, by simp, hip⟩
  | cons b bs ih =>
    intro df hip
    have hstep : (set fuel df b).1 = enqueued df b := by
      rw [set_busy fuel df b hip]
    simp only [List.foldl_cons, hstep]
    have hq : (enqueued df b).inProgress = true := hip
    obtain ⟨h1, h2, h3, h4⟩ := ih (enqueued df b) hq
    refine ⟨h1, h2, ?_, h4⟩
    rw [h3]
    simp [enqueued]

/-- Witness for C9 at concrete inputs: the cycle scenario's failing `set`
call, and subsequent calls on the stuck engine. -/
theorem stuckInProgress_witness :
    (set 10 cycDF [("a", JSValue.num 1)] =
        ((set 10 cycDF [("a", JSValue.num 1)]).1, some (.cycle ["a", "b", "a"]))
      ∧ (set 10 cycDF [("a", JSValue.num 1)]).1.inProgress = true)
    ∧ (busyDF.inProgress = true
      ∧ set 5 busyDF [("x", .num 1)] = (enqueued busyDF [("x", .num 1)], none))
    ∧ (busyDF.inProgress = true
      ∧ ((([[("y", .num 2)], [("z", .num 3)]] : List Batch).foldl
            (fun s b => (set 5 s b).1) busyDF).trace = busyDF.trace
        ∧ (([[("y", .num 2)], [("z", .num 3)]] : List Batch).foldl
            (fun s b => (set 5 s b).1) busyDF).value = busyDF.value
        ∧ (([[("y", .num 2)], [("z", .num 3)]] : List Batch).foldl
            (fun s b => (set 5 s b).1) busyDF).updateBatches =
              busyDF.updateBatches ++ [[("y", .num 2)], [("z", .num 3)]]
        ∧ (([[("y", .num 2)], [("z", .num 3)]] : List Batch).foldl
            (fun s b => (set 5 s b).1) busyDF).inProgress = true)) :=
  ⟨⟨rfl, stuckInProgress.1 10 cycDF [("a", JSValue.num 1)] _ _ rfl⟩,
   ⟨rfl, stuckInProgress.2.1 5 busyDF [("x", .num 1)] rfl⟩,
   ⟨rfl, stuckInProgress.2.2 5 busyDF rfl [[("y", .num 2)], [("z", .num 3)]]⟩⟩

/-- C2 (amended): the handle returned by a `set` call that starts a session
resolves only after the engine has dequeued and processed that call's batch
— on success the queue has fully drained and the batch's start event is in
the trace.  A `set` call made while a session is already active, however,
resolves immediately after enqueueing: it returns successfully with its
batch still unprocessed in the queue and nothing new in the trace. -/
theorem setHandle_resolution :
    (∀ (fuel : Nat) (df : Dataflow) (b : Batch) (df2 : Dataflow), df.inProgress = false →
        set fuel df b = (df2, none) → df2.updateBatches = [] ∧ Ev.bstart b ∈ df2.trace)
    ∧ (∀ (fuel : Nat) (df : Dataflow) (b : Batch), df.inProgress = true →
        (set fuel df b).2 = none
          ∧ (set fuel df b).1.trace = df.trace
          ∧ b ∈ (set fuel df b).1.updateBatches) := by
  refine ⟨fun fuel df b df2 hip h => set_quiet_ok fuel df b df2 hip h, ?_⟩
  intro fuel df b hip
  rw [set_busy fuel df b hip]
  refine ⟨rfl, rfl, ?_⟩
  simp [enqueued]

/-- Counterexample to C2 as stated: a `set` call made while a session is
active (`inProgress` raised, as observed from inside a running producer)
returns a handle that resolves at once — the call succeeds — while its
batch is still sitting unprocessed in the queue and no batch processing has
been recorded at all. -/
theorem setHandle_cex :
    (set 5 busyDF [("x", .num 1)]).2 = none
    ∧ [("x", JSValue.num 1)] ∈ (set 5 busyDF [("x", .num 1)]).1.updateBatches
    ∧ (set 5 busyDF [("x", .num 1)]).1.trace = [] := by
  refine ⟨rfl, by decide, rfl⟩

/-- Witness for C2 (amended) at concrete inputs: a quiescent engine with the
batch `{a: 1}`, and the mid-session engine with the batch `{x: 1}`. -/
theorem setHandle_resolution_witness :
    (emptyDataflow.inProgress = false
      ∧ set 3 emptyDataflow [("a", JSValue.num 1)] =
          ((set 3 emptyDataflow [("a", JSValue.num 1)]).1, none)
      ∧ ((set 3 emptyDataflow [("a", JSValue.num 1)]).1.updateBatches = []
        ∧ Ev.bstart [("a", JSValue.num 1)] ∈ (set 3 emptyDataflow [("a", JSValue.num 1)]).1.trace))
    ∧ (busyDF.inProgress = true
      ∧ ((set 5 busyDF [("x", JSValue.num 1)]).2 = none
        ∧ (set 5 busyDF [("x", JSValue.num 1)]).1.trace = busyDF.trace
        ∧ [("x", JSValue.num 1)] ∈ (set 5 busyDF [("x", JSValue.num 1)]).1.updateBatches)) :=
  ⟨⟨rfl, rfl, setHandle_resolution.1 3 emptyDataflow [("a", JSValue.num 1)] _ rfl rfl⟩,
   ⟨rfl, setHandle_resolution.2 5 busyDF [("x", JSValue.num 1)] rfl⟩⟩

/-! ## The no-change invariant: all-false flags propagate no work -/

theorem gatherCalls_quiet (df : Dataflow) (hflags : df.valueChanged = fun _ => false)
    (fr : List Name) :
    ∀ pc ∈ gatherCalls df fr,
      pc.invoked = false ∧ pc.result = .ok (df.value pc.name) ∧ pc.enq = [] := by
  induction fr with
  | nil =>
    intro pc hpc
    exact absurd hpc (List.not_mem_nil pc)
  | cons n ns ih =>
    intro pc hpc
    simp only [gatherCalls] at hpc
    cases hf : df.nameToFn n with
    | none =>
      rw [hf] at hpc
      exact ih pc hpc
    | some f =>
      rw [hf] at hpc
      have hgate : (df.nodeToUpstream n).any df.valueChanged = false := by
        rw [hflags]
        simp
      rw [hgate] at hpc
      simp only [Bool.false_eq_true, if_false] at hpc
      rcases List.mem_cons.mp hpc with he | hm
      · subst he
        exact ⟨rfl, rfl, rfl⟩
      · exact ih pc hm

theorem roundCallEvents_quiet (df : Dataflow) (hflags : df.valueChanged = fun _ => false)
    (fr : List Name) : roundCallEvents df fr = [] := by
  have hf : (gatherCalls df fr).filter (fun pc => pc.invoked) = [] := by
    rw [List.filter_eq_nil]
    intro pc hpc
    have := (gatherCalls_quiet df hflags fr pc hpc).1
    simp [this]
  simp only [roundCallEvents, hf, List.map_nil]

theorem roundEnqueues_quiet (df : Dataflow) (hflags : df.valueChanged = fun _ => false)
    (fr : List Name) : roundEnqueues df fr = [] := by
  simp only [roundEnqueues]
  rw [List.flatten_eq_nil_iff]
  intro l hl
  simp only [List.mem_map] at hl
  obtain ⟨pc, hpc, hl2⟩ := hl
  rw [← hl2]
  exact (gatherCalls_quiet df hflags fr pc hpc).2.2

theorem settlePhase_quiet (pcs : List PendingCall) (df : Dataflow) (fr : List Name)
    (hflags : df.valueChanged = fun _ => false)
    (hres : ∀ pc ∈ pcs, pc.result = .ok (df.value pc.name)) :
    (settlePhase df pcs fr).1.value = df.value
    ∧ (settlePhase df pcs fr).1.valueChanged = (fun _ => false)
    ∧ (settlePhase df pcs fr).1.errors = df.errors
    ∧ (settlePhase df pcs fr).1.trace = df.trace
    ∧ (settlePhase df pcs fr).1.updateBatches = df.updateBatches := by
  induction pcs generalizing df fr with
  | nil => exact ⟨rfl, hflags, rfl, rfl, rfl⟩
  | cons pc pcs ih =>
    have hr : pc.result = .ok (df.value pc.name) := hres pc (List.mem_cons_self pc pcs)
    simp only [settlePhase, hr]
    have hEq : isEqualJS (df.value pc.name) (df.value pc.name) = true := by
      simp [isEqualJS]
    have hval : (setNodeValue df pc.name (df.value pc.name) fr).1.value = df.value := by
      funext m
      rw [setNodeValue_value]
      rw [hEq]
      simp
    have hch : (setNodeValue df pc.name (df.value pc.name) fr).1.valueChanged =
        (fun _ => false) := by
      funext m
      rw [setNodeValue_valueChanged]
      rw [hEq, hflags]
      simp
    have hrest : ∀ q ∈ pcs,
        q.result = .ok ((setNodeValue df pc.name (df.value pc.name) fr).1.value q.name) := by
      intro q hq
      rw [hval]
      exact hres q (List.mem_cons_of_mem pc hq)
    obtain ⟨h1, h2, h3, h4, h5⟩ := ih _ _ hch hrest
    refine ⟨h1.trans hval, h2, h3.trans (setNodeValue_errors _ _ _ _),
      h4.trans (setNodeValue_trace _ _ _ _), h5.trans (setNodeValue_updateBatches _ _ _ _)⟩

theorem runRound_quiet (df : Dataflow) (fr : List Name)
    (hflags : df.valueChanged = fun _ => false) :
    (runRound df fr).1.value = df.value
    ∧ (runRound df fr).1.valueChanged = (fun _ => false)
    ∧ (runRound df fr).1.errors = df.errors
    ∧ (runRound df fr).1.trace = df.trace
    ∧ (runRound df fr).1.updateBatches = df.updateBatches := by
  simp only [runRound, roundCallEvents_quiet df hflags fr, roundEnqueues_quiet df hflags fr,
    List.append_nil]
  have hres : ∀ pc ∈ gatherCalls df fr, pc.result = .ok (df.value pc.name) :=
    fun pc hpc => (gatherCalls_quiet df hflags fr pc hpc).2.1
  exact settlePhase_quiet (gatherCalls df fr) df [] hflags hres

theorem runWave_quiet (fuel : Nat) (df : Dataflow) (fr : List Name)
    (hflags : df.valueChanged = fun _ => false) :
    (runWave fuel df fr).1.value = df.value
    ∧ (runWave fuel df fr).1.errors = df.errors
    ∧ (runWave fuel df fr).1.trace = df.trace
    ∧ (runWave fuel df fr).1.updateBatches = df.updateBatches := by
  induction fuel generalizing df fr with
  | zero => exact ⟨rfl, rfl, rfl, rfl⟩
  | succ fuel ih =>
    simp only [runWave]
    split
    · exact ⟨rfl, rfl, rfl, rfl⟩
    · obtain ⟨r1, r2, r3, r4, r5⟩ := runRound_quiet df fr hflags
      obtain ⟨w1, w2, w3, w4⟩ := ih (runRound df fr).1 (runRound df fr).2 r2
      exact ⟨w1.trans r1, w2.trans r3, w3.trans r4, w4.trans r5⟩

theorem processBatch_noop (fuel : Nat) (df : Dataflow) (x : Name) (v : JSValue)
    (heq : isEqualJS (df.value x) v = true) :
    (processBatch fuel df [(x, v)]).1.value = df.value
    ∧ (∀ ev ∈ (processBatch fuel df [(x, v)]).1.trace,
        ev ∈ df.trace ∨ ev = Ev.bstart [(x, v)] ∨ ev = Ev.bend [(x, v)])
    ∧ (processBatch fuel df [(x, v)]).1.updateBatches = df.updateBatches
    ∧ (processBatch fuel df [(x, v)]).1.errors = df.errors := by
  simp only [processBatch]
  cases hv : visitReachableFnsFromParams (batchClosure df [(x, v)]) fuel
      ([(x, v)].map Prod.fst) with
  | error e =>
    refine ⟨rfl, ?_, rfl, rfl⟩
    intro ev hev
    simp only [batchClosure, List.mem_append] at hev
    rcases hev with h | h
    · exact Or.inl h
    · simp only [List.mem_singleton] at h
      exact Or.inr (Or.inl h)
  | ok vc =>
    simp only []
    have hstart : (entriesStart df [(x, v)] vc.2).value = df.value := rfl
    cases hg : guardCheck x v with
    | some e =>
      have hentry : entriesPhase (entriesStart df [(x, v)] vc.2) [(x, v)] [] =
          (entriesStart df [(x, v)] vc.2, [], some e) := by
        simp [entriesPhase, hg]
      rw [hentry]
      refine ⟨rfl, ?_, rfl, rfl⟩
      intro ev hev
      simp only [entriesStart, batchClosure, List.mem_append] at hev
      rcases hev with h | h
      · exact Or.inl h
      · simp only [List.mem_singleton] at h
        exact Or.inr (Or.inl h)
    | none =>
      have heq2 : isEqualJS ((entriesStart df [(x, v)] vc.2).value x) v = true := heq
      have hentry : entriesPhase (entriesStart df [(x, v)] vc.2) [(x, v)] [] =
          ((setNodeValue (entriesStart df [(x, v)] vc.2) x v []).1,
            (setNodeValue (entriesStart df [(x, v)] vc.2) x v []).2, none) := by
        simp [entriesPhase, hg]
      rw [hentry]
      have hval : (setNodeValue (entriesStart df [(x, v)] vc.2) x v []).1.value = df.value := by
        funext m
        rw [setNodeValue_value]
        rw [heq2]
        simp
        rfl
      have hch : (setNodeValue (entriesStart df [(x, v)] vc.2) x v []).1.valueChanged =
          (fun _ => false) := by
        funext m
        rw [setNodeValue_valueChanged]
        rw [heq2]
        by_cases hm : m = x
        · simp [hm]
        · simp only [if_neg hm]
          rfl
      have htr : (setNodeValue (entriesStart df [(x, v)] vc.2) x v []).1.trace =
          df.trace ++ [Ev.bstart [(x, v)]] := by
        rw [setNodeValue_trace]
        rfl
      have hqueue : (setNodeValue (entriesStart df [(x, v)] vc.2) x v []).1.updateBatches =
          df.updateBatches := by
        rw [setNodeValue_updateBatches]
        rfl
      have herr : (setNodeValue (entriesStart df [(x, v)] vc.2) x v []).1.errors =
          df.errors := by
        rw [setNodeValue_errors]
        rfl
      obtain ⟨w1, w2, w3, w4⟩ := runWave_quiet fuel
        (setNodeValue (entriesStart df [(x, v)] vc.2) x v []).1
        (setNodeValue (entriesStart df [(x, v)] vc.2) x v []).2 hch
      cases hW : (runWave fuel (setNodeValue (entriesStart df [(x, v)] vc.2) x v []).1
          (setNodeValue (entriesStart df [(x, v)] vc.2) x v []).2).2.2 with
      | some e =>
        refine ⟨w1.trans hval, ?_, w4.trans hqueue, w2.trans herr⟩
        intro ev hev
        rw [w3, htr] at hev
        simp only [List.mem_append] at hev
        rcases hev with h | h
        · exact Or.inl h
        · simp only [List.mem_singleton] at h
          exact Or.inr (Or.inl h)
      | none =>
        refine ⟨w1.trans hval, ?_, w4.trans hqueue, w2.trans herr⟩
        intro ev hev
        simp only [List.mem_append] at hev
        rcases hev with h | h
        · rw [w3, htr] at h
          simp only [List.mem_append] at h
          rcases h with h2 | h2
          · exact Or.inl h2
          · simp only [List.mem_singleton] at h2
            exact Or.inr (Or.inl h2)
        · simp only [List.mem_singleton] at h
          exact Or.inr (Or.inr h)

theorem drainLoop_one_noop (fuel : Nat) (df0 : Dataflow) (x : Name) (v : JSValue)
    (hq : df0.updateBatches = [(x, v)] :: [])
    (heq : isEqualJS (df0.value x) v = true) :
    (drainLoop fuel df0).1.value = df0.value
    ∧ ∀ ev ∈ (drainLoop fuel df0).1.trace,
        ev ∈ df0.trace ∨ ev = Ev.bstart [(x, v)] ∨ ev = Ev.bend [(x, v)] := by
  cases fuel with
  | zero =>
    rw [drainLoop_zero df0 [(x, v)] [] hq]
    exact ⟨rfl, fun ev hev => Or.inl hev⟩
  | succ fuel =>
    have heq2 : isEqualJS (({ df0 with updateBatches := [] } : Dataflow).value x) v = true := heq
    obtain ⟨n1, n2, n3, n4⟩ :=
      processBatch_noop (batchFuel df0) { df0 with updateBatches := [] } x v heq2
    cases hr : (processBatch (batchFuel df0)
        { df0 with updateBatches := [] } [(x, v)]).2.2 with
    | some e =>
      rw [drainLoop_cons_err fuel df0 [(x, v)] [] e hq hr]
      exact ⟨n1, n2⟩
    | none =>
      rw [drainLoop_cons_ok fuel df0 [(x, v)] [] hq hr]
      have hnil : (processBatch (batchFuel df0)
          { df0 with updateBatches := [] } [(x, v)]).1.updateBatches = [] := n3
      rw [drainLoop_nil fuel _ hnil]
      exact ⟨n1, n2⟩

/-- C7: if `update({x: v})` is called where `v` deep-equals the current
cached value of `x` (on a quiescent engine with an empty queue), then no
producer of any node in the graph is invoked during that batch — the only
events the call can add to the trace are the batch's own start and end
markers — and every node's cached value is unchanged. -/
theorem noopUpdate (fuel : Nat) (df : Dataflow) (x : Name) (v : JSValue)
    (hip : df.inProgress = false) (hq : df.updateBatches = [])
    (heq : isEqualJS (df.value x) v = true) :
    (set fuel df [(x, v)]).1.value = df.value
    ∧ (∀ ev ∈ (set fuel df [(x, v)]).1.trace,
        ev ∈ df.trace ∨ ev = Ev.bstart [(x, v)] ∨ ev = Ev.bend [(x, v)]) := by
  have hip2 : (enqueued df [(x, v)]).inProgress = false := by
    simp only [enqueued]
    simpa using hip
  simp only [set, hip2]
  simp only [Bool.false_eq_true, if_false]
  have hq2 : (sessionStart df [(x, v)]).updateBatches = [(x, v)] :: [] := by
    simp [sessionStart, enqueued, hq]
  have heqS : isEqualJS ((sessionStart df [(x, v)]).value x) v = true := heq
  obtain ⟨d1, d2⟩ := drainLoop_one_noop fuel (sessionStart df [(x, v)]) x v hq2 heqS
  cases hd : (drainLoop fuel (sessionStart df [(x, v)])).2 with
  | none =>
    refine ⟨d1, ?_⟩
    intro ev hev
    exact d2 ev hev
  | some e =>
    refine ⟨d1, ?_⟩
    intro ev hev
    exact d2 ev hev

/-- Witness for C7 at a concrete input: the store `dfNoop` (`x` cached as
`5`, `y = 2*x` cached as `10`) updated with `{x: 5}`. -/
theorem noopUpdate_witness :
    dfNoop.inProgress = false
    ∧ dfNoop.updateBatches = []
    ∧ isEqualJS (dfNoop.value "x") (.num 5) = true
    ∧ ((set 5 dfNoop [("x", .num 5)]).1.value = dfNoop.value
      ∧ (∀ ev ∈ (set 5 dfNoop [("x", .num 5)]).1.trace,
          ev ∈ dfNoop.trace ∨ ev = Ev.bstart [("x", .num 5)] ∨ ev = Ev.bend [("x", .num 5)])) :=
  ⟨rfl, rfl, rfl, noopUpdate 5 dfNoop "x" (.num 5) rfl rfl rfl⟩

/-! ## The memoization gate: which producers run in a batch -/

theorem calledIn_iff (tr : List Ev) (N : Name) :
    calledIn tr N = true ↔ ∃ args, Ev.call N args ∈ tr := by
  simp only [calledIn, List.any_eq_true]
  constructor
  · rintro ⟨ev, hev, hp⟩
    cases ev with
    | bstart b => simp at hp
    | bend b => simp at hp
    | call m args =>
      simp only [beq_iff_eq] at hp
      subst hp
      exact ⟨args, hev⟩
  · rintro ⟨args, hev⟩
    exact ⟨Ev.call N args, hev, by simp⟩

theorem gatherCalls_cons_view (df : Dataflow) (n : Name) (ns : List Name) :
    gatherCalls df (n :: ns) =
      match df.nameToFn n with
      | none => gatherCalls df ns
      | some f =>
        if (df.nodeToUpstream n).any df.valueChanged then
          ⟨n, (df.nodeToUpstream n).map df.value, true,
            (f.run ((df.nodeToUpstream n).map df.value)).result,
            (f.run ((df.nodeToUpstream n).map df.value)).enqueues⟩ :: gatherCalls df ns
        else
          ⟨n, (df.nodeToUpstream n).map df.value, false, .ok (df.value n), []⟩ ::
            gatherCalls df ns := rfl

theorem gatherCalls_cons_none (df : Dataflow) (n : Name) (ns : List Name)
    (hf : df.nameToFn n = none) : gatherCalls df (n :: ns) = gatherCalls df ns := by
  rw [gatherCalls_cons_view, hf]

theorem gatherCalls_cons_skip (df : Dataflow) (n : Name) (ns : List Name) (f : Fn)
    (hf : df.nameToFn n = some f)
    (hg : (df.nodeToUpstream n).any df.valueChanged = false) :
    gatherCalls df (n :: ns) =
      ⟨n, (df.nodeToUpstream n).map df.value, false, .ok (df.value n), []⟩ ::
        gatherCalls df ns := by
  rw [gatherCalls_cons_view, hf]
  rw [hg]
  rfl

theorem gatherCalls_cons_call (df : Dataflow) (n : Name) (ns : List Name) (f : Fn)
    (hf : df.nameToFn n = some f)
    (hg : (df.nodeToUpstream n).any df.valueChanged = true) :
    gatherCalls df (n :: ns) =
      ⟨n, (df.nodeToUpstream n).map df.value, true,
        (f.run ((df.nodeToUpstream n).map df.value)).result,
        (f.run ((df.nodeToUpstream n).map df.value)).enqueues⟩ ::
        gatherCalls df ns := by
  rw [gatherCalls_cons_view, hf]
  rw [hg]
  rfl

theorem roundCallEvents_cons_none (df : Dataflow) (n : Name) (ns : List Name)
    (hf : df.nameToFn n = none) : roundCallEvents df (n :: ns) = roundCallEvents df ns := by
  simp only [roundCallEvents, gatherCalls_cons_none df n ns hf]

theorem roundCallEvents_cons_skip (df : Dataflow) (n : Name) (ns : List Name) (f : Fn)
    (hf : df.nameToFn n = some f)
    (hg : (df.nodeToUpstream n).any df.valueChanged = false) :
    roundCallEvents df (n :: ns) = roundCallEvents df ns := by
  simp only [roundCallEvents, gatherCalls_cons_skip df n ns f hf hg]
  rfl

theorem roundCallEvents_cons_call (df : Dataflow) (n : Name) (ns : List Name) (f : Fn)
    (hf : df.nameToFn n = some f)
    (hg : (df.nodeToUpstream n).any df.valueChanged = true) :
    roundCallEvents df (n :: ns) =
      Ev.call n ((df.nodeToUpstream n).map df.value) :: roundCallEvents df ns := by
  simp only [roundCallEvents, gatherCalls_cons_call df n ns f hf hg]
  rfl

theorem roundCallEvents_mem (df : Dataflow) (fr : List Name) (N : Name) :
    (∃ args, Ev.call N args ∈ roundCallEvents df fr) ↔
      (N ∈ fr ∧ (df.nameToFn N).isSome
        ∧ (df.nodeToUpstream N).any df.valueChanged = true) := by
  induction fr with
  | nil => simp [roundCallEvents, gatherCalls]
  | cons n ns ih =>
    cases hf : df.nameToFn n with
    | none =>
      rw [roundCallEvents_cons_none df n ns hf, ih]
      constructor
      · rintro ⟨hm, hs, hg⟩
        exact ⟨List.mem_cons_of_mem n hm, hs, hg⟩
      · rintro ⟨hm, hs, hg⟩
        rcases List.mem_cons.mp hm with he | hm2
        · subst he
          rw [hf] at hs
          simp at hs
        · exact ⟨hm2, hs, hg⟩
    | some f =>
      cases hg : (df.nodeToUpstream n).any df.valueChanged with
      | false =>
        rw [roundCallEvents_cons_skip df n ns f hf hg, ih]
        constructor
        · rintro ⟨hm, hs, hgate⟩
          exact ⟨List.mem_cons_of_mem n hm, hs, hgate⟩
        · rintro ⟨hm, hs, hgate⟩
          rcases List.mem_cons.mp hm with he | hm2
          · subst he
            rw [hg] at hgate
            simp at hgate
          · exact ⟨hm2, hs, hgate⟩
      | true =>
        rw [roundCallEvents_cons_call df n ns f hf hg]
        constructor
        · rintro ⟨args, hargs⟩
          rcases List.mem_cons.mp hargs with he | hm2
          · have hN : N = n := by
              have h2 := congrArg (fun ev =>
                match ev with
                | Ev.call m _ => m
                | _ => "") he
              simpa using h2
            subst hN
            exact ⟨List.mem_cons_self N ns, by rw [hf]; rfl, hg⟩
          · have h3 := ih.mp ⟨args, hm2⟩
            exact ⟨List.mem_cons_of_mem n h3.1, h3.2.1, h3.2.2⟩
        · rintro ⟨hm, hs, hgate⟩
          rcases List.mem_cons.mp hm with he | hm2
          · subst he
            exact ⟨(df.nodeToUpstream N).map df.value, List.mem_cons_self _ _⟩
          · obtain ⟨args, hargs⟩ := ih.mpr ⟨hm2, hs, hgate⟩
            exact ⟨args, List.mem_cons_of_mem _ hargs⟩

theorem runWave_calls (fuel : Nat) (df : Dataflow) (fr : List Name) (N : Name) :
    ((∃ args, Ev.call N args ∈ (runWave fuel df fr).1.trace) ↔
      ((∃ args, Ev.call N args ∈ df.trace)
        ∨ ((df.nameToFn N).isSome ∧ ∃ r ∈ (runWave fuel df fr).2.1,
            N ∈ r.frontier ∧ (df.nodeToUpstream N).any r.changed = true))) := by
  induction fuel generalizing df fr with
  | zero => simp [runWave]
  | succ fuel ih =>
    simp only [runWave]
    split
    · simp
    · simp only []
      have hG := runRound_graph df fr
      have ihh := ih (runRound df fr).1 (runRound df fr).2
      rw [hG.1, hG.2.2.1] at ihh
      constructor
      · intro hcall
        rcases ihh.mp hcall with hold | ⟨hsome, r, hr, hfr2, hgate⟩
        · obtain ⟨args, hargs⟩ := hold
          rw [runRound_trace] at hargs
          rcases List.mem_append.mp hargs with h | h
          · exact Or.inl ⟨args, h⟩
          · have hm := (roundCallEvents_mem df fr N).mp ⟨args, h⟩
            exact Or.inr ⟨hm.2.1, ⟨fr, df.valueChanged⟩, List.mem_cons_self _ _, hm.1, hm.2.2⟩
        · exact Or.inr ⟨hsome, r, List.mem_cons_of_mem _ hr, hfr2, hgate⟩
      · intro h
        rcases h with hold | ⟨hsome, r, hr, hfr2, hgate⟩
        · apply ihh.mpr
          left
          obtain ⟨args, hargs⟩ := hold
          refine ⟨args, ?_⟩
          rw [runRound_trace]
          exact List.mem_append_left _ hargs
        · rcases List.mem_cons.mp hr with he | hm
          · subst he
            apply ihh.mpr
            left
            obtain ⟨args, hargs⟩ := (roundCallEvents_mem df fr N).mpr ⟨hfr2, hsome, hgate⟩
            refine ⟨args, ?_⟩
            rw [runRound_trace]
            exact List.mem_append_right _ hargs
          · exact ihh.mpr (Or.inr ⟨hsome, r, hm, hfr2, hgate⟩)

/-- C1 (amended): during the processing of one batch, node `N`'s producer is
invoked if and only if `N` is a registered node and, at some wavefront round
of that batch, `N` is in the round's frontier (its pending counter reached
zero) while at least one of `N`'s upstream names has its changed-flag set.
As originally stated — "invoked iff at least one upstream changed-flag is
set in the batch's propagation" — the law fails: a producer failure upstream
of `N` stops `N`'s counter from reaching zero, so `N` is never invoked even
though an upstream changed-flag is set (see the counterexample). -/
theorem memoization_gate (fuel : Nat) (df : Dataflow) (b : Batch) (N : Name)
    (h0 : df.trace = []) :
    (calledIn (processBatch fuel df b).1.trace N = true ↔
      ((df.nameToFn N).isSome ∧ ∃ r ∈ (processBatch fuel df b).2.1,
        N ∈ r.frontier ∧ (df.nodeToUpstream N).any r.changed = true)) := by
  rw [calledIn_iff]
  simp only [processBatch]
  cases hv : visitReachableFnsFromParams (batchClosure df b) fuel (b.map Prod.fst) with
  | error e =>
    simp only []
    constructor
    · rintro ⟨args, hargs⟩
      simp only [batchClosure, h0, List.nil_append, List.mem_singleton] at hargs
      cases hargs
    · rintro ⟨hsome, r, hr, hrest⟩
      exact absurd hr (List.not_mem_nil r)
  | ok vc =>
    simp only []
    have hentG : GraphEq (entriesPhase (entriesStart df b vc.2) b []).1 df :=
      (entriesPhase_graph _ _ _).trans ⟨rfl, rfl, rfl, rfl⟩
    have hentT : (entriesPhase (entriesStart df b vc.2) b []).1.trace = [Ev.bstart b] := by
      rw [entriesPhase_trace]
      simp [entriesStart, batchClosure, h0]
    cases hE : (entriesPhase (entriesStart df b vc.2) b []).2.2 with
    | some e =>
      constructor
      · rintro ⟨args, hargs⟩
        rw [hentT] at hargs
        simp only [List.mem_singleton] at hargs
        cases hargs
      · rintro ⟨hsome, r, hr, hrest⟩
        exact absurd hr (List.not_mem_nil r)
    | none =>
      have hw := runWave_calls fuel (entriesPhase (entriesStart df b vc.2) b []).1
        (entriesPhase (entriesStart df b vc.2) b []).2.1 N
      rw [hentG.1, hentG.2.2.1] at hw
      have hnostart : ¬ (∃ args, Ev.call N args ∈
          (entriesPhase (entriesStart df b vc.2) b []).1.trace) := by
        rintro ⟨args, hargs⟩
        rw [hentT] at hargs
        simp only [List.mem_singleton] at hargs
        cases hargs
      cases hW : (runWave fuel (entriesPhase (entriesStart df b vc.2) b []).1
          (entriesPhase (entriesStart df b vc.2) b []).2.1).2.2 with
      | some e =>
        simp only []
        rw [hw]
        constructor
        · rintro (h | h)
          · exact absurd h hnostart
          · exact h
        · exact Or.inr
      | none =>
        simp only []
        constructor
        · rintro ⟨args, hargs⟩
          simp only [List.mem_append, List.mem_singleton] at hargs
          rcases hargs with h | h
          · rcases hw.mp ⟨args, h⟩ with h2 | h2
            · exact absurd h2 hnostart
            · exact h2
          · cases h
        · intro h
          obtain ⟨args, hargs⟩ := hw.mpr (Or.inr h)
          exact ⟨args, List.mem_append_left _ hargs⟩

set_option maxHeartbeats 2000000 in
/-- Counterexample to C1 as stated: in the graph `N(a, b)`, `b(a2)` where
`b`'s producer always throws, the batch `{a: 1, a2: 1}` sets the
changed-flag of `a` — an upstream name of `N` — yet `N`'s producer is never
invoked in that batch's wavefront, because `b` fails and `N`'s pending
counter never reaches zero. -/
theorem memoization_cex :
    ¬ (calledIn (set 10 dfBlocked [("a", .num 1), ("a2", .num 1)]).1.trace "N" = true ↔
        (dfBlocked.nodeToUpstream "N").any
          (set 10 dfBlocked [("a", .num 1), ("a2", .num 1)]).1.valueChanged = true) := by
  decide

/-- Witness for C1 (amended) at a concrete input: the blocked-node graph and
batch of the counterexample, instantiated at the failing node `b` (which is
invoked) with the drain loop's per-batch fuel `4`. -/
theorem memoization_gate_witness :
    dfBlocked.trace = []
    ∧ (calledIn (processBatch 4 dfBlocked [("a", .num 1), ("a2", .num 1)]).1.trace "b" = true ↔
        ((dfBlocked.nameToFn "b").isSome
          ∧ ∃ r ∈ (processBatch 4 dfBlocked [("a", .num 1), ("a2", .num 1)]).2.1,
            "b" ∈ r.frontier ∧ (dfBlocked.nodeToUpstream "b").any r.changed = true)) :=
  ⟨rfl, memoization_gate 4 dfBlocked [("a", .num 1), ("a2", .num 1)] "b" rfl⟩

/-! ## Batch ordering and producer-failure isolation -/

/-- C8: batches are processed strictly in arrival order and never
interleaved: every session trace is a sequence of per-batch segments
(`Sessions`), each closed by a `bend` that is only emitted once the batch's
wavefront has fully drained, so a batch's processing never begins until the
previous batch's wavefront is empty; the head of the queue is always the
batch served first; and in the concrete dynamic-dataflow scenario — a
producer `p` that calls `set({q: 7})` from inside the current batch — the
nested batch is processed strictly after the current batch's wavefront has
drained, never interleaved with it. -/
theorem batchOrdering :
    (∀ (fuel : Nat) (df : Dataflow), df.trace = [] → Sessions (drainLoop fuel df).1.trace)
    ∧ (∀ (fuel : Nat) (df : Dataflow) (b : Batch) (rest : List Batch),
        df.updateBatches = b :: rest →
        ∃ evs, (drainLoop (fuel + 1) df).1.trace = df.trace ++ Ev.bstart b :: evs)
    ∧ (set 10 dfNest [("t", .num 1)]).1.trace =
        [Ev.bstart [("t", .num 1)], Ev.call "p" [.num 1], Ev.bend [("t", .num 1)],
          Ev.bstart [("q", .num 7)], Ev.call "r" [.num 7], Ev.bend [("q", .num 7)]] := by
  refine ⟨?sess, ?headFirst, rfl⟩
  case sess =>
    intro fuel df h0
    obtain ⟨evs, htr, hsess⟩ := drainLoop_sessions fuel df
    rw [htr, h0]
    simpa using hsess
  case headFirst =>
    intro fuel df b rest hq
    obtain ⟨evs, hco, htr⟩ :=
      processBatch_traceShape (batchFuel df) { df with updateBatches := rest } b
    have htr0 : ({ df with updateBatches := rest } : Dataflow).trace = df.trace := rfl
    cases hr : (processBatch (batchFuel df) { df with updateBatches := rest } b).2.2 with
    | some e =>
      rw [drainLoop_cons_err fuel df b rest e hq hr]
      rw [hr] at htr
      refine ⟨evs ++ [], ?_⟩
      rw [htr, htr0]
      simp
    | none =>
      rw [drainLoop_cons_ok fuel df b rest hq hr]
      rw [hr] at htr
      obtain ⟨evsD, htrD, _⟩ := drainLoop_sessions fuel
        (processBatch (batchFuel df) { df with updateBatches := rest } b).1
      refine ⟨(evs ++ [Ev.bend b]) ++ evsD, ?_⟩
      rw [htrD, htr, htr0]
      simp

/-- Witness for C8 at concrete inputs: the empty engine's (empty) session
trace, and the dynamic-dataflow scenario's queue served head-first. -/
theorem batchOrdering_witness :
    (emptyDataflow.trace = [] ∧ Sessions (drainLoop 3 emptyDataflow).1.trace)
    ∧ ((sessionStart dfNest [("t", .num 1)]).updateBatches = [("t", .num 1)] :: []
      ∧ ∃ evs, (drainLoop (9 + 1) (sessionStart dfNest [("t", .num 1)])).1.trace =
          (sessionStart dfNest [("t", .num 1)]).trace ++ Ev.bstart [("t", .num 1)] :: evs) :=
  ⟨⟨rfl, batchOrdering.1 3 emptyDataflow rfl⟩,
   ⟨rfl, batchOrdering.2.1 9 (sessionStart dfNest [("t", .num 1)]) [("t", .num 1)] [] rfl⟩⟩

set_option maxHeartbeats 2000000 in
/-- C5 (amended): if a producer throws during a batch, `update` itself does
not fail: the error sink holds exactly one record naming that node, the
upstream argument values passed to it, and the failure cause; every node
strictly downstream of the failing node that is not itself set directly by
an entry of the same batch keeps its pre-batch cached value; and nodes in
independent sibling branches of the same batch still update normally.
Verified on the representative graph `b = f(a)` (where `f` always throws
`"boom"`), `c = g(b)` strictly downstream of the failing node, and sibling
`s = h(a)`, with pre-batch values `a = 0`, `b = 5`, `c = 99` and the batch
`{a: 1}`. -/
theorem producerFailure_isolation :
    (set 10 dfFail [("a", .num 1)]).2 = none
    ∧ (set 10 dfFail [("a", .num 1)]).1.errors = [⟨"b", [.num 1], .str "boom"⟩]
    ∧ (set 10 dfFail [("a", .num 1)]).1.value "c" = .num 99
    ∧ (set 10 dfFail [("a", .num 1)]).1.value "b" = .num 5
    ∧ (set 10 dfFail [("a", .num 1)]).1.value "s" = .num 2
    ∧ dfFail.value "c" = .num 99
    ∧ dfFail.value "b" = .num 5 :=
  ⟨rfl, rfl, rfl, rfl, rfl, rfl, rfl⟩

set_option maxHeartbeats 2000000 in
/-- Counterexample to C5 as stated: in the same failing-producer scenario,
the batch `{a: 1, c: 42}` makes `b`'s producer throw (exactly one error
record is sunk), yet node `c` — strictly downstream of the failing node `b`,
but also named directly in the batch — does not keep its pre-batch cached
value `99`: the batch entry overwrites it with `42`. -/
theorem producerFailure_cex :
    (set 10 dfFail [("a", .num 1), ("c", .num 42)]).1.errors =
      [⟨"b", [.num 1], .str "boom"⟩]
    ∧ dfFail.value "c" = .num 99
    ∧ (set 10 dfFail [("a", .num 1), ("c", .num 42)]).1.value "c" = .num 42 :=
  ⟨rfl, rfl, rfl⟩

end TinyDataflow
